import Mathlib

/-!
Verification of the touche HTTP/1.x server/client core (reu/touche).

Shallow embedding conventions:
* Wire data is byte-oriented; every relevant byte is modelled as a `Char`
  (all protocol text is ASCII, bodies may hold arbitrary characters).
* `http::HeaderMap` is modelled as an association list in iteration order,
  with names stored lowercase (the http crate lowercases header names).
* `io::Error` values are identified by their message string, mirroring
  `io::Error::new(ErrorKind::Other, msg)` in the source.
* Readers (`Box<dyn Read>`) are modelled as in-memory cursors over the byte
  sequence they yield, exactly like the `std::io::Cursor` readers used by the
  repository's own tests: each `read` call returns as many bytes as the
  destination buffer can hold, and never fails.
-/

namespace Touche

/-- Wire text: a sequence of bytes, each modelled as a character. -/
abbrev Str := List Char

/-- Header map in iteration order; names are lowercase. -/
abbrev Headers := List (Str × Str)

/-- The CRLF line terminator. -/
def CRLF : Str := ['\r', '\n']

/-- `http::Version`, restricted to the variants this code distinguishes. -/
inductive HVersion
| http09
| http10
| http11
deriving DecidableEq

/-- `std::io::Error`, identified by its message (the source always builds
errors with `io::Error::new(ErrorKind::Other, msg)`). -/
structure IoErr where
  msg : Str
deriving DecidableEq

/-- `ParseError` from `src/request.rs`. All `httparse::Error` values map to
`invalid` just as the `#[from]` conversion collapses them into
`ParseError::Invalid`. -/
inductive ParseError
| connectionClosed
| io (e : IoErr)
| invalid
| incompleteRequest
| unsupportedHttpVersion (v : Nat)
| invalidTransferEncoding
| invalidHeader
| invalidChunkSize
| unknown
deriving DecidableEq

/-- A chunk of a chunked-encoded body (`src/body/http_body.rs`). -/
inductive Chunk
| data (bytes : Str)
| trailers (hs : Headers)
deriving DecidableEq

instance {ε α : Type} [DecidableEq ε] [DecidableEq α] :
    DecidableEq (Except ε α) := fun a b =>
  match a, b with
  | .ok x, .ok y =>
    if h : x = y then isTrue (congrArg Except.ok h) else isFalse (by simp [h])
  | .error x, .error y =>
    if h : x = y then isTrue (congrArg Except.error h)
    else isFalse (by simp [h])
  | .ok _, .error _ => isFalse (by simp)
  | .error _, .ok _ => isFalse (by simp)

/-- `Body` / `BodyInner` from `src/body.rs`. The `Option<BodyInner>`
consumed-state wrapper is dropped: every body here is consumed at most once.
Channel bodies are the `iter` variant whose items come from the receiver
(`Body::channel` wraps `rx.into_iter()` in `BodyInner::Iter`). The `reader`
variant carries the byte sequence its reader yields (cursor model) and the
optional declared length. -/
inductive Body
| empty
| buffered (bytes : Str)
| iter (chunks : List (Except IoErr Chunk))
| reader (data : Str) (length : Option Nat)
deriving DecidableEq

/- ### Header map primitives -/

/-- First value stored under `name` (model of a typed `HeaderMap` lookup;
faithful when names are not duplicated, which all theorems below require). -/
def getHeaderValue : Headers → Str → Option Str
| [], _ => none
| (n, v) :: hs, name => if n = name then some v else getHeaderValue hs name

/-- `HeaderMap::insert` / `typed_insert`: replace the first header of that
name in place (dropping later duplicates), or append when absent. -/
def insertHeader : Headers → Str → Str → Headers
| [], name, v => [(name, v)]
| (n, w) :: hs, name, v =>
  if n = name then (name, v) :: (hs.filter (fun p => ¬(p.1 = name)))
  else (n, w) :: insertHeader hs name v

/-- `HeaderMap::remove`: drop every header of that name. -/
def removeHeader (hs : Headers) (name : Str) : Headers :=
  hs.filter (fun p => ¬(p.1 = name))

def contentLengthName : Str := "content-length".data

def transferEncodingName : Str := "transfer-encoding".data

def connectionName : Str := "connection".data

def dateName : Str := "date".data

/- ### Decimal and hexadecimal numerals -/

/-- One digit as a character; lowercase hex, as Rust's `{:x}` prints. -/
def digitChar (d : Nat) : Char :=
  match d with
  | 0 => '0' | 1 => '1' | 2 => '2' | 3 => '3' | 4 => '4'
  | 5 => '5' | 6 => '6' | 7 => '7' | 8 => '8' | 9 => '9'
  | 10 => 'a' | 11 => 'b' | 12 => 'c' | 13 => 'd' | 14 => 'e'
  | _ => 'f'

/-- Decimal digit value of a character, if any. -/
def decDigitVal (c : Char) : Option Nat :=
  if 48 ≤ c.toNat ∧ c.toNat ≤ 57 then some (c.toNat - 48) else none

/-- Hexadecimal digit value of a character, if any (both cases, as
`httparse::parse_chunk_size` accepts). -/
def hexDigitVal (c : Char) : Option Nat :=
  if 48 ≤ c.toNat ∧ c.toNat ≤ 57 then some (c.toNat - 48)
  else if 97 ≤ c.toNat ∧ c.toNat ≤ 102 then some (c.toNat - 87)
  else if 65 ≤ c.toNat ∧ c.toNat ≤ 70 then some (c.toNat - 55)
  else none

/-- Base-`b` digits, little endian, with explicit fuel so the kernel can
evaluate it (`Nat.digits` agrees, see `natDigits_eq_digits`). -/
def natDigitsAux (b : Nat) : Nat → Nat → List Nat
| _, 0 => []
| 0, _ + 1 => []
| fuel + 1, n + 1 => (n + 1) % b :: natDigitsAux b fuel ((n + 1) / b)

def natDigits (b n : Nat) : List Nat := natDigitsAux b n n

theorem natDigitsAux_eq_digits (b : Nat) (hb : 1 < b) :
    ∀ fuel n, n ≤ fuel → natDigitsAux b fuel n = Nat.digits b n := by
  intro fuel
  induction fuel with
  | zero =>
    intro n hn
    match n, hn with
    | 0, _ => simp [natDigitsAux]
  | succ fuel ih =>
    intro n hn
    match n with
    | 0 => simp [natDigitsAux]
    | m + 1 =>
      have hdiv : (m + 1) / b ≤ fuel := by
        have : (m + 1) / b < m + 1 := Nat.div_lt_self (Nat.succ_pos m) hb
        omega
      rw [natDigitsAux, ih _ hdiv, Nat.digits_def' hb (Nat.succ_pos m)]

theorem natDigits_eq_digits (b : Nat) (hb : 1 < b) (n : Nat) :
    natDigits b n = Nat.digits b n :=
  natDigitsAux_eq_digits b hb n n (le_refl n)

/-- Print a natural number in base `b` (used at 10 and 16), most significant
digit first, printing `0` as `"0"`. -/
def showBase (b n : Nat) : Str :=
  if n = 0 then [digitChar 0] else ((natDigits b n).map digitChar).reverse

/-- Decimal rendering, as Rust's `{}` for integers. -/
def showDec (n : Nat) : Str := showBase 10 n

/-- Lowercase hexadecimal rendering, as Rust's `{:x}`. -/
def showHex (n : Nat) : Str := showBase 16 n

/-- Accumulate digit characters most-significant-first; `none` on any
non-digit. -/
def foldDigits (dv : Char → Option Nat) (b : Nat) : Str → Nat → Option Nat
| [], acc => some acc
| c :: cs, acc =>
  match dv c with
  | none => none
  | some d => foldDigits dv b cs (acc * b + d)

/-- Strict numeral parse: at least one digit, digits only (the shape shared
by `u64::from_str` for `Content-Length` and the hex accumulation inside
`httparse::parse_chunk_size`). -/
def parseDigits (dv : Char → Option Nat) (b : Nat) (s : Str) : Option Nat :=
  if s = [] then none else foldDigits dv b s 0

def parseDecNat (s : Str) : Option Nat := parseDigits decDigitVal 10 s

/- ### Numeral roundtrip lemmas -/

theorem decDigitVal_digitChar {d : Nat} (h : d < 10) :
    decDigitVal (digitChar d) = some d := by
  interval_cases d <;> decide

theorem hexDigitVal_digitChar {d : Nat} (h : d < 16) :
    hexDigitVal (digitChar d) = some d := by
  interval_cases d <;> decide

theorem foldDigits_append (dv : Char → Option Nat) (b : Nat) (s t : Str)
    (acc : Nat) :
    foldDigits dv b (s ++ t) acc =
      (foldDigits dv b s acc).bind (foldDigits dv b t) := by
  induction s generalizing acc with
  | nil => simp [foldDigits]
  | cons c cs ih =>
    simp only [List.cons_append, foldDigits]
    cases dv c with
    | none => simp
    | some d => simp [ih]

theorem foldDigits_digits (dv : Char → Option Nat) (b : Nat)
    (hdv : ∀ d < b, dv (digitChar d) = some d)
    (ds : List Nat) (hds : ∀ d ∈ ds, d < b) (acc : Nat) :
    foldDigits dv b ((ds.map digitChar).reverse) acc =
      some (acc * b ^ ds.length + Nat.ofDigits b ds) := by
  induction ds generalizing acc with
  | nil => simp [foldDigits, Nat.ofDigits]
  | cons d ds ih =>
    have hd : d < b := hds d (by simp)
    have hrest : ∀ x ∈ ds, x < b := fun x hx => hds x (by simp [hx])
    simp only [List.map_cons, List.reverse_cons]
    rw [foldDigits_append, ih hrest acc]
    simp only [Option.bind_some, foldDigits, hdv d hd]
    have : (acc * b ^ ds.length + Nat.ofDigits b ds) * b + d =
        acc * b ^ (ds.length + 1) + Nat.ofDigits b (d :: ds) := by
      rw [Nat.ofDigits_cons]
      ring
    simp [this, foldDigits]

theorem parseDigits_showBase (dv : Char → Option Nat) (b n : Nat)
    (hb : 1 < b) (hb16 : b ≤ 16)
    (hdv : ∀ d < b, dv (digitChar d) = some d) :
    parseDigits dv b (showBase b n) = some n := by
  by_cases hn : n = 0
  · subst hn
    have h0 : dv (digitChar 0) = some 0 := hdv 0 (by omega)
    simp [showBase, parseDigits, foldDigits, h0]
  · have hne : (Nat.digits b n) ≠ [] := Nat.digits_ne_nil_iff_ne_zero.mpr hn
    have hlt : ∀ d ∈ Nat.digits b n, d < b := fun d hd =>
      Nat.digits_lt_base hb hd
    have hsne : ((Nat.digits b n).map digitChar).reverse ≠ [] := by
      simp [hne]
    rw [showBase, if_neg hn, natDigits_eq_digits b hb, parseDigits,
      if_neg hsne, foldDigits_digits dv b hdv _ hlt 0]
    simp [Nat.ofDigits_digits]

theorem parseDecNat_showDec (n : Nat) : parseDecNat (showDec n) = some n :=
  parseDigits_showBase decDigitVal 10 n (by omega) (by omega)
    (fun d hd => decDigitVal_digitChar (by omega))

theorem parseHexNat_showHex (n : Nat) :
    parseDigits hexDigitVal 16 (showHex n) = some n :=
  parseDigits_showBase hexDigitVal 16 n (by omega) (by omega)
    (fun d hd => hexDigitVal_digitChar (by omega))

/-- Every character printed by `showBase` is a hexadecimal digit. -/
theorem mem_showBase_isDigit {b n : Nat} (hb : 1 < b) (hb16 : b ≤ 16)
    {c : Char} (hc : c ∈ showBase b n) : (hexDigitVal c).isSome := by
  by_cases hn : n = 0
  · subst hn
    simp [showBase] at hc
    subst hc
    decide
  · rw [showBase, if_neg hn, natDigits_eq_digits b hb] at hc
    simp only [List.mem_reverse, List.mem_map] at hc
    obtain ⟨d, hd, rfl⟩ := hc
    have : d < 16 := lt_of_lt_of_le (Nat.digits_lt_base hb hd) hb16
    rw [Option.isSome_iff_exists]
    exact ⟨d, hexDigitVal_digitChar this⟩

/-- Hexadecimal digits are none of the protocol delimiter characters. -/
theorem hexDigit_not_delim {c : Char} (h : (hexDigitVal c).isSome) :
    c ≠ '\r' ∧ c ≠ '\n' ∧ c ≠ ' ' ∧ c ≠ ':' ∧ c ≠ ';' ∧ c ≠ '\t' := by
  rw [hexDigitVal] at h
  have hval : (48 ≤ c.toNat ∧ c.toNat ≤ 57) ∨ (97 ≤ c.toNat ∧ c.toNat ≤ 102) ∨
      (65 ≤ c.toNat ∧ c.toNat ≤ 70) := by
    by_contra hcon
    push_neg at hcon
    obtain ⟨h1, h2, h3⟩ := hcon
    rw [if_neg (by omega), if_neg (by omega), if_neg (by omega)] at h
    simp at h
  refine ⟨?_, ?_, ?_, ?_, ?_, ?_⟩ <;>
    (intro heq; subst heq; revert hval; decide)

/- ### Body operations (`src/body.rs`, `src/body/http_body.rs`) -/

/-- The `filter_map` applied to iterator items in `into_bytes`, `into_reader`
and `From<Body> for BodyReader`: keep `Data` payloads and errors, drop
`Trailers`. -/
def dataItems : List (Except IoErr Chunk) → List (Except IoErr Str)
| [] => []
| .ok (.data d) :: r => .ok d :: dataItems r
| .ok (.trailers _) :: r => dataItems r
| .error e :: r => .error e :: dataItems r

/-- `collect::<io::Result<Vec<_>>>`: all payloads, or the first error. -/
def collectOk : List (Except IoErr Str) → Except IoErr (List Str)
| [] => .ok []
| .ok d :: r => (collectOk r).map (fun l => d :: l)
| .error e :: _ => .error e

/-- Concatenate payloads up to the first error (the `BodyReader` iterator
loop maps an error item to end-of-stream via `.and_then(|n| n.ok())`). -/
def takeOkDatas : List (Except IoErr Str) → Str
| [] => []
| .ok d :: r => d ++ takeOkDatas r
| .error _ :: _ => []

/-- `HttpBody::len` for `Body` (`src/body.rs` lines 124-133). -/
def Body.len : Body → Option Nat
| .empty => some 0
| .buffered bytes => some bytes.length
| .iter _ => none
| .reader _ (some n) => some n
| .reader _ none => none

/-- `Body::into_bytes` (`src/body.rs` lines 158-183). -/
def Body.into_bytes : Body → Except IoErr Str
| .empty => .ok []
| .buffered bytes => .ok bytes
| .iter chunks => (collectOk (dataItems chunks)).map (fun l => l.flatten)
| .reader data (some n) => .ok (data.take n)
| .reader data none => .ok data

/-- The state of a `BodyReader` (`src/body.rs`): a cursor over buffered
bytes, an iterator with a leftover cursor, or a raw (take-limited) reader. -/
inductive BodyReader
| buffered (bytes : Str)
| iter (items : List (Except IoErr Str)) (leftover : Option Str)
| reader (data : Str)
deriving DecidableEq

/-- `Body::into_reader` (`src/body.rs` lines 135-156): the iterator variant
pre-pulls the first item (an error first item becomes an empty cursor via
`unwrap_or_default`), the reader-with-length variant applies `take(len)`. -/
def Body.into_reader : Body → BodyReader
| .empty => .buffered []
| .buffered bytes => .buffered bytes
| .iter chunks =>
  let ds := dataItems chunks
  .iter ds.tail (ds.head?.map (fun x => x.toOption.getD []))
| .reader data (some n) => .reader (data.take n)
| .reader data none => .reader data

/-- Reading a `BodyReader` to the end (`impl Read for BodyReader`): the
iterator loop drains the leftover cursor, then pulls items, treating the
first error item as end of stream. -/
def BodyReader.read_to_end : BodyReader → Str
| .buffered bytes => bytes
| .reader data => data
| .iter items leftover =>
  match leftover with
  | none => []
  | some cur => cur ++ takeOkDatas items

/-- The chunk pieces produced by `ChunkIterator` on a reader body
(`src/body.rs` lines 357-381): read up to 8 KiB at a time; with a declared
length, stop once `len.checked_sub(bytes)` is none or zero (note the read
itself is not capped at the remaining declared length). -/
def readChunksAux : Nat → Str → Option Nat → List Str
| _, [], _ => []
| 0, _ :: _, _ => []
| fuel + 1, c :: cs, len =>
  match len with
  | none => (c :: cs).take 8192 :: readChunksAux fuel ((c :: cs).drop 8192) none
  | some l =>
    if ((c :: cs).take 8192).length ≤ l ∧ 0 < l - ((c :: cs).take 8192).length
    then
      (c :: cs).take 8192 ::
        readChunksAux fuel ((c :: cs).drop 8192)
          (some (l - ((c :: cs).take 8192).length))
    else [(c :: cs).take 8192]

/-- Each step of the loop consumes at least one byte, so `data.length` steps
always reach the end of the data; the fuel only drives structural recursion. -/
def readChunks (data : Str) (len : Option Nat) : List Str :=
  readChunksAux data.length data len

/-- `Body::into_chunks` (`src/body.rs` lines 185-194) run to completion as a
list of items (`Iterator for ChunkIterator`, lines 346-384): a buffered body
is a single `Data` chunk, an iterator body is passed through up to (and
excluding) the first error item, a reader body is split into 8 KiB reads. -/
def Body.into_chunks : Body → List (Except IoErr Chunk)
| .empty => []
| .buffered bytes => [.ok (.data bytes)]
| .iter chunks => chunks.takeWhile (fun c => c.isOk)
| .reader data len => (readChunks data len).map (fun d => .ok (.data d))

/-- Concatenation of the `Data` payloads among chunk items, trailers and
errors excluded. -/
def chunkDataConcat : List (Except IoErr Chunk) → Str
| [] => []
| .ok (.data d) :: r => d ++ chunkDataConcat r
| .ok (.trailers _) :: r => chunkDataConcat r
| .error _ :: r => chunkDataConcat r

/-- The byte payload a well-formed body holds. -/
def Body.payload : Body → Str
| .empty => []
| .buffered bytes => bytes
| .iter chunks => chunkDataConcat chunks
| .reader data (some n) => data.take n
| .reader data none => data

/-- Bodies whose three consumers agree: iterator items carry no error, and a
declared reader length is not exceeded by the reader's actual content. -/
def Body.chunkSafe : Body → Bool
| .empty => true
| .buffered _ => true
| .iter chunks => chunks.all (fun c => c.isOk)
| .reader data (some n) => data.length ≤ n
| .reader _ none => true

/- ### Lemmas about body consumption -/

theorem takeWhile_allOk {α β : Type} (xs : List (Except α β))
    (h : xs.all (fun c => c.isOk) = true) :
    xs.takeWhile (fun c => c.isOk) = xs := by
  induction xs with
  | nil => rfl
  | cons x r ih =>
    simp only [List.all_cons, Bool.and_eq_true] at h
    simp [List.takeWhile_cons, h.1, ih h.2]

theorem collectOk_dataItems (xs : List (Except IoErr Chunk))
    (h : xs.all (fun c => c.isOk) = true) :
    ∃ L, collectOk (dataItems xs) = .ok L ∧ L.flatten = chunkDataConcat xs := by
  induction xs with
  | nil => exact ⟨[], rfl, rfl⟩
  | cons x r ih =>
    simp only [List.all_cons, Bool.and_eq_true] at h
    obtain ⟨L, hL, hflat⟩ := ih h.2
    match x, h.1 with
    | .ok (.data d), _ =>
      exact ⟨d :: L, by simp [dataItems, collectOk, hL, Except.map],
        by simp [List.flatten_cons, hflat, chunkDataConcat]⟩
    | .ok (.trailers t), _ =>
      exact ⟨L, by simp [dataItems, hL], by simp [hflat, chunkDataConcat]⟩

theorem takeOkDatas_dataItems (xs : List (Except IoErr Chunk))
    (h : xs.all (fun c => c.isOk) = true) :
    takeOkDatas (dataItems xs) = chunkDataConcat xs := by
  induction xs with
  | nil => rfl
  | cons x r ih =>
    simp only [List.all_cons, Bool.and_eq_true] at h
    match x, h.1 with
    | .ok (.data d), _ => simp [dataItems, takeOkDatas, chunkDataConcat, ih h.2]
    | .ok (.trailers t), _ => simp [dataItems, chunkDataConcat, ih h.2]

theorem dataItems_allOk (xs : List (Except IoErr Chunk))
    (h : xs.all (fun c => c.isOk) = true) :
    ∀ y ∈ dataItems xs, y.isOk := by
  induction xs with
  | nil => intro y hy; cases hy
  | cons x r ih =>
    simp only [List.all_cons, Bool.and_eq_true] at h
    match x, h.1 with
    | .ok (.data d), _ =>
      intro y hy
      rcases hy with _ | hy
      · rfl
      · exact ih h.2 y (by assumption)
    | .ok (.trailers t), _ => exact ih h.2

theorem chunkDataConcat_mapData (l : List Str) :
    chunkDataConcat (l.map (fun d => Except.ok (Chunk.data d))) = l.flatten := by
  induction l with
  | nil => rfl
  | cons d r ih => simp [chunkDataConcat, ih]

theorem readChunksAux_flatten (fuel : Nat) :
    ∀ (data : Str) (len : Option Nat), data.length ≤ fuel →
    (∀ n, len = some n → data.length ≤ n) →
    (readChunksAux fuel data len).flatten = data := by
  induction fuel with
  | zero =>
    intro data len hfuel _
    match data, hfuel with
    | [], _ => cases len <;> rfl
  | succ fuel ih =>
    intro data len hfuel hlen
    match data with
    | [] => cases len <;> rfl
    | c :: cs =>
      have hsplit : (c :: cs).take 8192 ++ (c :: cs).drop 8192 = c :: cs :=
        List.take_append_drop 8192 (c :: cs)
      have hdrop : ((c :: cs).drop 8192).length = (c :: cs).length - 8192 :=
        List.length_drop 8192 (c :: cs)
      have htake : ((c :: cs).take 8192).length = min 8192 (c :: cs).length :=
        List.length_take 8192 (c :: cs)
      have hfuel2 : ((c :: cs).drop 8192).length ≤ fuel := by
        rw [hdrop]
        simp only [List.length_cons] at hfuel ⊢
        omega
      match len with
      | none =>
        have : (readChunksAux fuel ((c :: cs).drop 8192) none).flatten =
            (c :: cs).drop 8192 :=
          ih _ none hfuel2 (by intro n hn; cases hn)
        simp only [readChunksAux, List.flatten_cons, this, hsplit]
      | some l =>
        have hl : (c :: cs).length ≤ l := hlen l rfl
        by_cases hcond : ((c :: cs).take 8192).length ≤ l ∧
            0 < l - ((c :: cs).take 8192).length
        · have : (readChunksAux fuel ((c :: cs).drop 8192)
              (some (l - ((c :: cs).take 8192).length))).flatten =
              (c :: cs).drop 8192 := by
            apply ih _ _ hfuel2
            intro n hn
            injection hn with hn
            subst hn
            rw [hdrop, htake]
            rw [htake] at hcond
            omega
          simp only [readChunksAux, if_pos hcond, List.flatten_cons, this,
            hsplit]
        · have hall : (c :: cs).length ≤ 8192 := by
            rw [htake] at hcond
            by_contra hgt
            push_neg at hgt
            apply hcond
            constructor <;> omega
          have htk : (c :: cs).take 8192 = c :: cs := List.take_of_length_le hall
          have hlen2 : l = cs.length + 1 := by
            rw [htk] at hcond
            simp only [List.length_cons] at hcond hl
            omega
          simp [readChunksAux, htk, hlen2]

theorem readChunks_flatten (data : Str) (len : Option Nat)
    (hlen : ∀ n, len = some n → data.length ≤ n) :
    (readChunks data len).flatten = data :=
  readChunksAux_flatten data.length data len (le_refl _) hlen

/-- `into_bytes` on a chunk-safe body returns exactly its payload. -/
theorem into_bytes_chunkSafe (b : Body) (h : b.chunkSafe = true) :
    b.into_bytes = .ok b.payload := by
  match b with
  | .empty => rfl
  | .buffered bytes => rfl
  | .iter chunks =>
    obtain ⟨L, hL, hflat⟩ := collectOk_dataItems chunks h
    simp [Body.into_bytes, hL, Body.payload, hflat, Except.map]
  | .reader data (some n) =>
    have h1 : data.length ≤ n := by simpa [Body.chunkSafe] using h
    have : data.take n = data := List.take_of_length_le h1
    simp [Body.into_bytes, Body.payload, this]
  | .reader data none => rfl

/-- `into_chunks` on a chunk-safe body carries exactly its payload. -/
theorem into_chunks_chunkSafe (b : Body) (h : b.chunkSafe = true) :
    chunkDataConcat b.into_chunks = b.payload := by
  match b with
  | .empty => rfl
  | .buffered bytes => simp [Body.into_chunks, chunkDataConcat, Body.payload]
  | .iter chunks =>
    simp [Body.into_chunks, takeWhile_allOk chunks h, Body.payload]
  | .reader data (some n) =>
    have h1 : data.length ≤ n := by simpa [Body.chunkSafe] using h
    have htk : data.take n = data := List.take_of_length_le h1
    have hfl : (readChunks data (some n)).flatten = data := by
      apply readChunks_flatten
      intro m hm
      injection hm with hm
      omega
    simp [Body.into_chunks, Body.payload, chunkDataConcat_mapData, hfl, htk]
  | .reader data none =>
    have hfl : (readChunks data none).flatten = data := by
      apply readChunks_flatten
      intro m hm
      cases hm
    simp [Body.into_chunks, Body.payload, chunkDataConcat_mapData, hfl]

/-- Reading `into_reader` to the end on a chunk-safe body returns exactly its
payload. -/
theorem read_to_end_chunkSafe (b : Body) (h : b.chunkSafe = true) :
    b.into_reader.read_to_end = b.payload := by
  match b with
  | .empty => rfl
  | .buffered bytes => rfl
  | .iter chunks =>
    have hok := dataItems_allOk chunks h
    have htk := takeOkDatas_dataItems chunks h
    match hd : dataItems chunks with
    | [] =>
      rw [hd] at htk
      simp [Body.into_reader, BodyReader.read_to_end, hd, Body.payload, ← htk,
        takeOkDatas]
    | x :: tl =>
      have : x.isOk := by
        apply hok
        rw [hd]
        simp
      match x, this with
      | .ok d, _ =>
        rw [hd] at htk
        simp [Body.into_reader, BodyReader.read_to_end, hd, Body.payload,
          ← htk, takeOkDatas, Except.toOption]
  | .reader data (some n) =>
    have h1 : data.length ≤ n := by simpa [Body.chunkSafe] using h
    have : data.take n = data := List.take_of_length_le h1
    simp [Body.into_reader, BodyReader.read_to_end, Body.payload, this]
  | .reader data none => rfl

theorem takeWhile_ok_append {α β : Type} (xs ys : List (Except α β))
    (h : xs.all (fun c => c.isOk) = true) :
    (xs ++ ys).takeWhile (fun c => c.isOk) =
      xs ++ ys.takeWhile (fun c => c.isOk) := by
  induction xs with
  | nil => rfl
  | cons x r ih =>
    simp only [List.all_cons, Bool.and_eq_true] at h
    simp [List.takeWhile_cons, h.1, ih h.2]

theorem dataItems_append (xs ys : List (Except IoErr Chunk)) :
    dataItems (xs ++ ys) = dataItems xs ++ dataItems ys := by
  induction xs with
  | nil => rfl
  | cons x r ih =>
    match x with
    | .ok (.data d) => simp [dataItems, ih]
    | .ok (.trailers t) => simp [dataItems, ih]
    | .error e => simp [dataItems, ih]

theorem collectOk_append_error (ds rest : List (Except IoErr Str)) (e : IoErr)
    (h : ∀ y ∈ ds, y.isOk) :
    collectOk (ds ++ .error e :: rest) = .error e := by
  induction ds with
  | nil => rfl
  | cons x r ih =>
    have hx : x.isOk := h x (by simp)
    match x, hx with
    | .ok d, _ =>
      have : collectOk (r ++ .error e :: rest) = .error e :=
        ih (fun y hy => h y (by simp [hy]))
      simp [collectOk, this, Except.map]

/-- C2, corrected.  For a chunk-safe body (no error items from an iterator
or channel source, and a declared reader length not exceeded by the reader's
content), `into_bytes` equals the concatenation of the `Data` payloads
yielded by `into_chunks` (trailers excluded), and equals reading
`into_reader` to the end. -/
theorem c2_body_consumers_agree (b : Body) (h : b.chunkSafe = true) :
    b.into_bytes = .ok (chunkDataConcat b.into_chunks) ∧
    b.into_bytes = .ok b.into_reader.read_to_end := by
  rw [into_bytes_chunkSafe b h, into_chunks_chunkSafe b h,
    read_to_end_chunkSafe b h]
  exact ⟨rfl, rfl⟩

theorem c2_body_consumers_agree_witness :
    (Body.iter [Except.ok (Chunk.data ['l', 'o', 'l']),
      Except.ok (Chunk.trailers [(['x'], ['y'])]),
      Except.ok (Chunk.data ['w', 'u', 't'])]).chunkSafe = true ∧
    ((Body.iter [Except.ok (Chunk.data ['l', 'o', 'l']),
      Except.ok (Chunk.trailers [(['x'], ['y'])]),
      Except.ok (Chunk.data ['w', 'u', 't'])]).into_bytes =
      .ok (chunkDataConcat (Body.iter [Except.ok (Chunk.data ['l', 'o', 'l']),
        Except.ok (Chunk.trailers [(['x'], ['y'])]),
        Except.ok (Chunk.data ['w', 'u', 't'])]).into_chunks) ∧
     (Body.iter [Except.ok (Chunk.data ['l', 'o', 'l']),
      Except.ok (Chunk.trailers [(['x'], ['y'])]),
      Except.ok (Chunk.data ['w', 'u', 't'])]).into_bytes =
      .ok (Body.iter [Except.ok (Chunk.data ['l', 'o', 'l']),
        Except.ok (Chunk.trailers [(['x'], ['y'])]),
        Except.ok (Chunk.data ['w', 'u', 't'])]).into_reader.read_to_end) :=
  ⟨by decide, c2_body_consumers_agree _ (by decide)⟩

/-- C2 counterexample: a reader body that declares length 3 while its reader
yields 6 bytes.  `into_bytes` caps at the declared length (`take(len)`), but
the chunk iterator reads up to 8 KiB and never truncates the last read, so
the chunk payloads exceed the declared length. -/
theorem c2_counterexample :
    ¬((Body.reader ['l', 'o', 'l', 'w', 'u', 't'] (some 3)).into_bytes =
      .ok (chunkDataConcat
        (Body.reader ['l', 'o', 'l', 'w', 'u', 't'] (some 3)).into_chunks)) := by
  decide

/-- C10, confirmed.  An iterator (or channel) body whose source yields an
error: `into_chunks` ends at the error without yielding an error item, while
`into_bytes` surfaces exactly that error. -/
theorem c10_chunks_swallow_error (pre post : List (Except IoErr Chunk))
    (e : IoErr) (hpre : pre.all (fun c => c.isOk) = true) :
    (Body.iter (pre ++ .error e :: post)).into_chunks = pre ∧
    ((Body.iter (pre ++ .error e :: post)).into_chunks).all
      (fun c => c.isOk) = true ∧
    (Body.iter (pre ++ .error e :: post)).into_bytes = .error e := by
  have hchunks : (Body.iter (pre ++ .error e :: post)).into_chunks = pre := by
    show (pre ++ .error e :: post).takeWhile (fun c => c.isOk) = pre
    rw [takeWhile_ok_append pre _ hpre]
    simp [List.takeWhile_cons, Except.isOk, Except.toBool]
  refine ⟨hchunks, by rw [hchunks]; exact hpre, ?_⟩
  show (collectOk (dataItems (pre ++ .error e :: post))).map
    (fun l => l.flatten) = .error e
  rw [dataItems_append]
  have : collectOk (dataItems pre ++ .error e :: dataItems post) = .error e :=
    collectOk_append_error _ _ e (dataItems_allOk pre hpre)
  simp [dataItems, this, Except.map]

theorem c10_chunks_swallow_error_witness :
    (([Except.ok (Chunk.data ['1', '2', '3']),
      Except.ok (Chunk.data ['4', '5', '6'])] :
      List (Except IoErr Chunk)).all (fun c => c.isOk) = true) ∧
    ((Body.iter ([Except.ok (Chunk.data ['1', '2', '3']),
        Except.ok (Chunk.data ['4', '5', '6'])] ++
        .error ⟨"aborted".data⟩ :: [])).into_chunks =
      [Except.ok (Chunk.data ['1', '2', '3']),
        Except.ok (Chunk.data ['4', '5', '6'])] ∧
     ((Body.iter ([Except.ok (Chunk.data ['1', '2', '3']),
        Except.ok (Chunk.data ['4', '5', '6'])] ++
        .error ⟨"aborted".data⟩ :: [])).into_chunks).all
        (fun c => c.isOk) = true ∧
     (Body.iter ([Except.ok (Chunk.data ['1', '2', '3']),
        Except.ok (Chunk.data ['4', '5', '6'])] ++
        .error ⟨"aborted".data⟩ :: [])).into_bytes =
        .error ⟨"aborted".data⟩) :=
  ⟨by decide, c10_chunks_swallow_error _ [] _ (by decide)⟩

/- ### Typed header getters (models of the `headers` crate accessors) -/

def splitCommas : Str → List Str
| [] => [[]]
| c :: cs =>
  if c = ',' then [] :: splitCommas cs
  else
    match splitCommas cs with
    | [] => [[c]]
    | t :: r => (c :: t) :: r

def isHWS (c : Char) : Bool := c = ' ' ∨ c = '\t'

def trimWS (s : Str) : Str :=
  ((s.dropWhile isHWS).reverse.dropWhile isHWS).reverse

/-- Modelled from the spec: `headers::Connection::contains` (an external
crate) — the comma-separated `Connection` value contains the given token
(§4.6, §4.8 read it as a token list). -/
def connectionContains (hs : Headers) (token : Str) : Bool :=
  match getHeaderValue hs connectionName with
  | none => false
  | some v => ((splitCommas v).map trimWS).any (fun t => t = token)

/-- Modelled from the spec: `typed_get::<TransferEncoding>()` followed by
`is_chunked()` (external `headers` crate) — §4.4 treats exactly the value
`chunked` as chunked. -/
def hasChunkedTE (hs : Headers) : Bool :=
  match getHeaderValue hs transferEncodingName with
  | none => false
  | some v => v = "chunked".data

/-- `typed_get::<ContentLength>()`: present and a valid decimal number, else
none (a malformed value reads as absent on the untyped `typed_get` path). -/
def getContentLength (hs : Headers) : Option Nat :=
  match getHeaderValue hs contentLengthName with
  | none => none
  | some v => parseDecNat v

/-- `typed_try_get::<ContentLength>()`: a present but malformed value is an
`InvalidHeader` error (`ParseError::InvalidHeader`). -/
def tryGetContentLength (hs : Headers) : Except ParseError (Option Nat) :=
  match getHeaderValue hs contentLengthName with
  | none => .ok none
  | some v =>
    match parseDecNat v with
    | some n => .ok (some n)
    | none => .error .invalidHeader

/- ### Messages and framing (`src/request.rs`, `src/response.rs`) -/

/-- `Encoding` from `src/response.rs`. -/
inductive Encoding
| fixedLength (n : Nat)
| chunked
| closeDelimited
deriving DecidableEq

/-- `Outcome` from `src/response.rs`; the upgrade handler payload is opaque
and omitted. -/
inductive Outcome
| close
| keepAlive
| upgrade
deriving DecidableEq

/-- `http::Request<Body>`: method, URI, version, headers, body. -/
structure Request where
  method : Str
  uri : Str
  version : HVersion
  headers : Headers
  body : Body
deriving DecidableEq

/-- `http::Response<Body>`: version, status code, headers, body; `upgrade`
records whether an `UpgradeExtension` is attached in the extensions. -/
structure Response where
  version : HVersion
  status : Nat
  headers : Headers
  upgrade : Bool
  body : Body
deriving DecidableEq

def errFramingMismatch : IoErr := ⟨"content-length doesn't match body length".data⟩

def errUndeterminedBodySize : IoErr := ⟨"could not determine the size of the body".data⟩

def errUnsupportedVersion : IoErr := ⟨"unsupported http version".data⟩

def errUnreachable : IoErr := ⟨"unreachable".data⟩

/-- The encoding decision of `write_request` (`src/request.rs` lines
122-161), also returning the possibly modified header map. -/
def requestFraming (method : Str) (version : HVersion) (hs : Headers)
    (bodyLen : Option Nat) : Except IoErr (Encoding × Headers) :=
  if hasChunkedTE hs ∧ version = .http11 then .ok (.chunked, hs)
  else if (getContentLength hs).isSome ∨ bodyLen.isSome then
    match getContentLength hs, bodyLen with
    | some n, some m =>
      if n ≠ m then .error errFramingMismatch else .ok (.fixedLength n, hs)
    | some n, none => .ok (.fixedLength n, hs)
    | none, some m =>
      .ok (.fixedLength m, insertHeader hs contentLengthName (showDec m))
    | none, none => .error errUnreachable
  else if bodyLen = none ∧ ¬method = "GET".data ∧ ¬method = "HEAD".data ∧
      version = .http11 then
    .ok (.chunked, insertHeader hs transferEncodingName "chunked".data)
  else .error errUndeterminedBodySize

/-- The encoding decision of `write_response` (`src/response.rs` lines
128-156), also returning the possibly modified header map. -/
def responseFraming (version : HVersion) (hs : Headers)
    (bodyLen : Option Nat) : Except IoErr (Encoding × Headers) :=
  if hasChunkedTE hs ∧ version = .http11 then .ok (.chunked, hs)
  else if (getContentLength hs).isSome ∨ bodyLen.isSome then
    match getContentLength hs, bodyLen with
    | some n, some m =>
      if n ≠ m then .error errFramingMismatch else .ok (.fixedLength n, hs)
    | some n, none => .ok (.fixedLength n, hs)
    | none, some m =>
      .ok (.fixedLength m, insertHeader hs contentLengthName (showDec m))
    | none, none => .error errUnreachable
  else if bodyLen = none ∧ ¬connectionContains hs "close".data = true ∧
      version = .http11 then
    .ok (.chunked, insertHeader hs transferEncodingName "chunked".data)
  else
    .ok (.closeDelimited,
      if connectionContains hs "close".data then hs
      else insertHeader hs connectionName "close".data)

/- ### Serialization -/

def renderHeaderLine (p : Str × Str) : Str := p.1 ++ [':', ' '] ++ p.2 ++ CRLF

def renderHeaderLines (hs : Headers) : Str := (hs.map renderHeaderLine).flatten

/-- One encoded data chunk: `hex(len) CRLF bytes CRLF`. -/
def encodeChunkData (d : Str) : Str := showHex d.length ++ CRLF ++ d ++ CRLF

/-- The chunked body emission loop shared by the writers: emit the data
chunks in order, accumulate trailer chunks (`trailers.extend(te)`), then the
terminal `0 CRLF`, the trailer lines and a final CRLF.  An error item is
propagated as in `write_response` (`match chunk?`); `Body::into_chunks`
never produces one. -/
def encodeChunkedAux : List (Except IoErr Chunk) → Headers →
    Except IoErr (Str × Headers)
| [], trailers => .ok ([], trailers)
| .error e :: _, _ => .error e
| .ok (.data d) :: r, trailers =>
  (encodeChunkedAux r trailers).map (fun p => (encodeChunkData d ++ p.1, p.2))
| .ok (.trailers t) :: r, trailers => encodeChunkedAux r (trailers ++ t)

def encodeChunkedBody (chunks : List (Except IoErr Chunk)) :
    Except IoErr Str :=
  (encodeChunkedAux chunks []).map
    (fun p => p.1 ++ [digitChar 0] ++ CRLF ++ renderHeaderLines p.2 ++ CRLF)

/-- The body emission of the writers, by framing: small fixed-length bodies
are buffered via `into_bytes`, other fixed-length and close-delimited bodies
are copied from `into_reader`, chunked bodies use the chunk encoder. -/
def writeBodyBytes (body : Body) (enc : Encoding) : Except IoErr Str :=
  match enc with
  | .fixedLength n =>
    if n < 1024 then body.into_bytes else .ok body.into_reader.read_to_end
  | .closeDelimited => .ok body.into_reader.read_to_end
  | .chunked => encodeChunkedBody body.into_chunks

/-- `format!("{version:?}")`, the Debug rendering used in the response
status line. -/
def versionDebug : HVersion → Str
| .http09 => "HTTP/0.9".data
| .http10 => "HTTP/1.0".data
| .http11 => "HTTP/1.1".data

/-- The reason phrase of `http::StatusCode`'s `Display` (external crate).
The parser never reads it, so only the phrases appearing in the repository's
tests are tabulated; other codes print the http crate's placeholder. -/
def canonicalReason (s : Nat) : Str :=
  if s = 100 then "Continue".data
  else if s = 101 then "Switching Protocols".data
  else if s = 200 then "OK".data
  else if s = 404 then "Not Found".data
  else if s = 417 then "Expectation Failed".data
  else if s = 500 then "Internal Server Error".data
  else "<unknown status code>".data

/-- Result of writing a request: the emitted bytes, their head part, the
header map as emitted and the framing chosen. -/
structure WriteOut where
  wire : Str
  head : Str
  headers : Headers
  encoding : Encoding
deriving DecidableEq

/-- The request start line string for the supported versions;
`write_request` rejects the others. -/
def requestVersionStr : HVersion → Except IoErr Str
| .http11 => .ok "HTTP/1.1".data
| .http10 => .ok "HTTP/1.0".data
| .http09 => .error errUnsupportedVersion

/-- `{method} {uri} {version}CRLF` followed by the header lines and the
blank line. -/
def requestHead (method uri vstr : Str) (hs : Headers) : Str :=
  method ++ [' '] ++ uri ++ [' '] ++ vstr ++ CRLF ++
    renderHeaderLines hs ++ CRLF

/-- `write_request` (`src/request.rs` lines 107-218). -/
def write_request (r : Request) : Except IoErr WriteOut :=
  match requestFraming r.method r.version r.headers r.body.len with
  | .error e => .error e
  | .ok (enc, hs) =>
    match requestVersionStr r.version with
    | .error e => .error e
    | .ok vstr =>
      match writeBodyBytes r.body enc with
      | .error e => .error e
      | .ok bodyBytes =>
        .ok ⟨requestHead r.method r.uri vstr hs ++ bodyBytes,
             requestHead r.method r.uri vstr hs, hs, enc⟩

/-- Result of writing a response: the emitted bytes, their head part, the
header map as emitted, the framing chosen and the returned `Outcome`. -/
structure WriteResOut where
  wire : Str
  head : Str
  headers : Headers
  encoding : Encoding
  outcome : Outcome
deriving DecidableEq

/-- The header map as emitted: HTTP/1.0 responses that carried a chunked
`Transfer-Encoding` header have it stripped (`src/response.rs` lines
158-160). -/
def responseFinalHeaders (r : Response) (hs1 : Headers) : Headers :=
  if r.version = .http10 ∧ hasChunkedTE r.headers = true then
    removeHeader hs1 transferEncodingName
  else hs1

/-- `{version:?} {status}CRLF` followed by the header lines and the blank
line. -/
def responseHead (r : Response) (hs2 : Headers) : Str :=
  versionDebug r.version ++ [' '] ++ showDec r.status ++ [' '] ++
    canonicalReason r.status ++ CRLF ++ renderHeaderLines hs2 ++ CRLF

/-- The `Outcome` computation (`src/response.rs` lines 207-217). -/
def responseOutcome (r : Response) (enc : Encoding) (hs2 : Headers) :
    Outcome :=
  if r.upgrade then Outcome.upgrade
  else if enc = .closeDelimited ∨ connectionContains hs2 "close".data = true
  then Outcome.close
  else Outcome.keepAlive

/-- `write_response` (`src/response.rs` lines 100-220). -/
def write_response (r : Response) (writeBody : Bool) :
    Except IoErr WriteResOut :=
  match responseFraming r.version r.headers r.body.len with
  | .error e => .error e
  | .ok (enc, hs1) =>
    match (if writeBody then writeBodyBytes r.body enc else .ok []) with
    | .error e => .error e
    | .ok bodyBytes =>
      .ok ⟨responseHead r (responseFinalHeaders r hs1) ++ bodyBytes,
           responseHead r (responseFinalHeaders r hs1),
           responseFinalHeaders r hs1, enc,
           responseOutcome r enc (responseFinalHeaders r hs1)⟩

/- ### Header map lemmas -/

theorem getHeaderValue_removeHeader (hs : Headers) (name : Str) :
    getHeaderValue (removeHeader hs name) name = none := by
  induction hs with
  | nil => rfl
  | cons p r ih =>
    by_cases hp : p.1 = name
    · simpa [removeHeader, hp] using ih
    · simpa [removeHeader, List.filter_cons, hp, getHeaderValue] using ih

theorem responseFraming_not11_ne_chunked (v : HVersion) (hs : Headers)
    (bl : Option Nat) (enc : Encoding) (hs1 : Headers)
    (hv : ¬v = .http11)
    (h : responseFraming v hs bl = .ok (enc, hs1)) : ¬enc = .chunked := by
  intro hc
  subst hc
  rw [responseFraming.eq_def] at h
  rw [if_neg (by intro hcc; exact hv hcc.2)] at h
  split at h
  all_goals try split at h
  all_goals try split at h
  all_goals simp_all

/-- C4, confirmed.  Part one: with no chunked `Transfer-Encoding`, no
`Content-Length` and an unknown body length, `write_response`'s framing
decision is chunked (injecting `Transfer-Encoding: chunked`) when no
`Connection: close` is set and the version is HTTP/1.1, and close-delimited
(injecting `Connection: close` when not already set) otherwise.  Part two:
an HTTP/1.0 response carrying a chunked `Transfer-Encoding` header has that
header stripped from the emitted head, the framing coming from the decision
table (hence never chunked). -/
theorem c4_unknown_length_and_http10_strip (v : HVersion) (hs : Headers)
    (r : Response) (wb : Bool) (o : WriteResOut)
    (hA1 : hasChunkedTE hs = false)
    (hA2 : getHeaderValue hs contentLengthName = none)
    (hB1 : r.version = .http10) (hB2 : hasChunkedTE r.headers = true)
    (hB3 : write_response r wb = .ok o) :
    ((¬connectionContains hs "close".data = true ∧ v = .http11 →
      responseFraming v hs none =
        .ok (.chunked, insertHeader hs transferEncodingName "chunked".data)) ∧
     (connectionContains hs "close".data = true ∨ ¬v = .http11 →
      responseFraming v hs none =
        .ok (.closeDelimited,
          if connectionContains hs "close".data then hs
          else insertHeader hs connectionName "close".data))) ∧
    (getHeaderValue o.headers transferEncodingName = none ∧
     ¬o.encoding = .chunked ∧
     ∃ hs1, responseFraming r.version r.headers r.body.len =
        .ok (o.encoding, hs1) ∧
      o.headers = removeHeader hs1 transferEncodingName) := by
  have hclA : getContentLength hs = none := by
    rw [getContentLength, hA2]
  constructor
  · constructor
    · rintro ⟨hconn, hv⟩
      rw [responseFraming.eq_def, if_neg (by intro hc; rw [hA1] at hc; cases hc.1),
        if_neg (by rw [hclA]; simp), if_pos ⟨rfl, by simpa using hconn, hv⟩]
    · intro hor
      rw [responseFraming.eq_def, if_neg (by intro hc; rw [hA1] at hc; cases hc.1),
        if_neg (by rw [hclA]; simp), if_neg (by
          rintro ⟨-, hconn, hv⟩
          rcases hor with hor | hor
          · exact hconn hor
          · exact hor hv)]
  · cases hfr : responseFraming r.version r.headers r.body.len with
    | error e => simp [write_response.eq_def, hfr] at hB3
    | ok p =>
      obtain ⟨enc, hs1⟩ := p
      have hne : ¬enc = .chunked := by
        apply responseFraming_not11_ne_chunked r.version r.headers r.body.len
          enc hs1 (by rw [hB1]; intro hc; cases hc) hfr
      have hfin : responseFinalHeaders r hs1 =
          removeHeader hs1 transferEncodingName := by
        rw [responseFinalHeaders, if_pos ⟨hB1, hB2⟩]
      cases hwb : (if wb then writeBodyBytes r.body enc
          else Except.ok ([] : Str)) with
      | error e => simp [write_response.eq_def, hfr, hwb] at hB3
      | ok bodyBytes =>
        have hval : write_response r wb =
            .ok ⟨responseHead r (responseFinalHeaders r hs1) ++ bodyBytes,
                 responseHead r (responseFinalHeaders r hs1),
                 responseFinalHeaders r hs1, enc,
                 responseOutcome r enc (responseFinalHeaders r hs1)⟩ := by
          simp [write_response.eq_def, hfr, hwb]
        rw [hval] at hB3
        have ho := (Except.ok.inj hB3).symm
        refine ⟨?_, ?_, hs1, ?_, ?_⟩
        · rw [ho]
          show getHeaderValue (responseFinalHeaders r hs1)
            transferEncodingName = none
          rw [hfin]
          exact getHeaderValue_removeHeader hs1 transferEncodingName
        · rw [ho]
          exact hne
        · rw [ho]
        · rw [ho]
          exact hfin

theorem c4_unknown_length_and_http10_strip_witness :
    (hasChunkedTE ([] : Headers) = false ∧
     getHeaderValue ([] : Headers) contentLengthName = none ∧
     hasChunkedTE [(transferEncodingName, "chunked".data)] = true ∧
     write_response
       ⟨.http10, 200, [(transferEncodingName, "chunked".data)], false,
        .iter [.ok (.data "lol".data)]⟩ true =
       .ok ⟨("HTTP/1.0 200 OK\r\nconnection: close\r\n\r\nlol").data,
            ("HTTP/1.0 200 OK\r\nconnection: close\r\n\r\n").data,
            [(connectionName, "close".data)], .closeDelimited, .close⟩) ∧
    getHeaderValue
      (WriteResOut.headers
        ⟨("HTTP/1.0 200 OK\r\nconnection: close\r\n\r\nlol").data,
         ("HTTP/1.0 200 OK\r\nconnection: close\r\n\r\n").data,
         [(connectionName, "close".data)], .closeDelimited, .close⟩)
      transferEncodingName = none :=
  ⟨by decide,
   (c4_unknown_length_and_http10_strip .http11 []
     ⟨.http10, 200, [(transferEncodingName, "chunked".data)], false,
      .iter [.ok (.data "lol".data)]⟩ true
     ⟨("HTTP/1.0 200 OK\r\nconnection: close\r\n\r\nlol").data,
      ("HTTP/1.0 200 OK\r\nconnection: close\r\n\r\n").data,
      [(connectionName, "close".data)], .closeDelimited, .close⟩
     (by decide) (by decide) (by decide) (by decide) (by decide)).2.1⟩

/-- C5, corrected.  When the headers declare `Content-Length: n`, the body
knows its length `m`, and `n ≠ m`, both writers fail with the framing
mismatch error and emit nothing — provided the chunked branch does not win
first (no chunked `Transfer-Encoding` header with version HTTP/1.1; in that
case the mismatch is never checked, see the counterexample). -/
theorem c5_content_length_mismatch_fails (req : Request) (res : Response)
    (wb : Bool) (n m k l : Nat)
    (hq1 : getContentLength req.headers = some n)
    (hq2 : req.body.len = some m) (hq3 : ¬n = m)
    (hq4 : ¬(hasChunkedTE req.headers = true ∧ req.version = .http11))
    (hr1 : getContentLength res.headers = some k)
    (hr2 : res.body.len = some l) (hr3 : ¬k = l)
    (hr4 : ¬(hasChunkedTE res.headers = true ∧ res.version = .http11)) :
    write_request req = .error errFramingMismatch ∧
    write_response res wb = .error errFramingMismatch := by
  constructor
  · have hfr : requestFraming req.method req.version req.headers req.body.len =
        .error errFramingMismatch := by
      rw [requestFraming.eq_def, if_neg (by simpa using hq4),
        if_pos (by rw [hq1]; simp), hq1, hq2]
      simp [hq3]
    rw [write_request.eq_def, hfr]
  · have hfr : responseFraming res.version res.headers res.body.len =
        .error errFramingMismatch := by
      rw [responseFraming.eq_def, if_neg (by simpa using hr4),
        if_pos (by rw [hr1]; simp), hr1, hr2]
      simp [hr3]
    rw [write_response.eq_def, hfr]

theorem c5_content_length_mismatch_fails_witness :
    (getContentLength [(contentLengthName, "5".data)] = some 5 ∧
     (Body.buffered "lol".data).len = some 3) ∧
    (write_request
      ⟨"POST".data, "/x".data, .http10,
       [(contentLengthName, "5".data)], .buffered "lol".data⟩ =
      .error errFramingMismatch ∧
     write_response
      ⟨.http10, 200, [(contentLengthName, "5".data)], false,
       .buffered "lol".data⟩ true = .error errFramingMismatch) :=
  ⟨by decide,
   c5_content_length_mismatch_fails
     ⟨"POST".data, "/x".data, .http10,
      [(contentLengthName, "5".data)], .buffered "lol".data⟩
     ⟨.http10, 200, [(contentLengthName, "5".data)], false,
      .buffered "lol".data⟩ true 5 3 5 3
     (by decide) (by decide) (by decide) (by decide)
     (by decide) (by decide) (by decide) (by decide)⟩

/-- C5 counterexample: with a chunked `Transfer-Encoding` header and version
HTTP/1.1, `write_response` chooses chunked framing before ever comparing the
declared `Content-Length` 5 with the body's known length 3, and succeeds. -/
theorem c5_counterexample :
    getContentLength [(transferEncodingName, "chunked".data),
      (contentLengthName, "5".data)] = some 5 ∧
    (Body.buffered "lol".data).len = some 3 ∧
    (write_response
      ⟨.http11, 200,
       [(transferEncodingName, "chunked".data),
        (contentLengthName, "5".data)], false,
       .buffered "lol".data⟩ true).isOk = true := by
  decide

/-- C6, confirmed.  The outcome of a successful `write_response` is Upgrade
when an upgrade handler is attached, else Close when the chosen framing was
close-delimited or the emitted headers say `Connection: close`, else
KeepAlive. -/
theorem c6_outcome (r : Response) (wb : Bool) (o : WriteResOut)
    (h : write_response r wb = .ok o) :
    o.outcome =
      if r.upgrade then Outcome.upgrade
      else if o.encoding = .closeDelimited ∨
          connectionContains o.headers "close".data = true then Outcome.close
      else Outcome.keepAlive := by
  cases hfr : responseFraming r.version r.headers r.body.len with
  | error e => simp [write_response.eq_def, hfr] at h
  | ok p =>
    obtain ⟨enc, hs1⟩ := p
    cases hwb : (if wb then writeBodyBytes r.body enc
        else Except.ok ([] : Str)) with
    | error e => simp [write_response.eq_def, hfr, hwb] at h
    | ok bodyBytes =>
      have hval : write_response r wb =
          .ok ⟨responseHead r (responseFinalHeaders r hs1) ++ bodyBytes,
               responseHead r (responseFinalHeaders r hs1),
               responseFinalHeaders r hs1, enc,
               responseOutcome r enc (responseFinalHeaders r hs1)⟩ := by
        simp [write_response.eq_def, hfr, hwb]
      rw [hval] at h
      have ho := (Except.ok.inj h).symm
      rw [ho]
      show responseOutcome r enc (responseFinalHeaders r hs1) = _
      rw [responseOutcome]

theorem c6_outcome_witness :
    write_response ⟨.http11, 200, [(connectionName, "close".data)], false,
      .empty⟩ true =
      .ok ⟨("HTTP/1.1 200 OK\r\nconnection: close\r\ncontent-length: 0\r\n\r\n").data,
           ("HTTP/1.1 200 OK\r\nconnection: close\r\ncontent-length: 0\r\n\r\n").data,
           [(connectionName, "close".data), (contentLengthName, "0".data)],
           .fixedLength 0, .close⟩ ∧
    (WriteResOut.outcome
      ⟨("HTTP/1.1 200 OK\r\nconnection: close\r\ncontent-length: 0\r\n\r\n").data,
       ("HTTP/1.1 200 OK\r\nconnection: close\r\ncontent-length: 0\r\n\r\n").data,
       [(connectionName, "close".data), (contentLengthName, "0".data)],
       .fixedLength 0, .close⟩ =
      if (false : Bool) then Outcome.upgrade
      else if WriteResOut.encoding
          ⟨("HTTP/1.1 200 OK\r\nconnection: close\r\ncontent-length: 0\r\n\r\n").data,
           ("HTTP/1.1 200 OK\r\nconnection: close\r\ncontent-length: 0\r\n\r\n").data,
           [(connectionName, "close".data), (contentLengthName, "0".data)],
           .fixedLength 0, .close⟩ = .closeDelimited ∨
          connectionContains (WriteResOut.headers
          ⟨("HTTP/1.1 200 OK\r\nconnection: close\r\ncontent-length: 0\r\n\r\n").data,
           ("HTTP/1.1 200 OK\r\nconnection: close\r\ncontent-length: 0\r\n\r\n").data,
           [(connectionName, "close".data), (contentLengthName, "0".data)],
           .fixedLength 0, .close⟩) "close".data = true then Outcome.close
      else Outcome.keepAlive) :=
  ⟨by decide,
   c6_outcome ⟨.http11, 200, [(connectionName, "close".data)], false, .empty⟩
     true _ (by decide)⟩

/-- C8, confirmed for successful writes.  `write_response` with
`write_body = false` emits exactly the head the `write_body = true` run
emits (up to and including the blank line), no body bytes follow, and the
emitted headers, framing and outcome coincide. -/
theorem c8_head_only_run (r : Response) (o : WriteResOut)
    (h : write_response r true = .ok o) :
    write_response r false =
      .ok ⟨o.head, o.head, o.headers, o.encoding, o.outcome⟩ ∧
    ∃ bodyPart, o.wire = o.head ++ bodyPart := by
  cases hfr : responseFraming r.version r.headers r.body.len with
  | error e => simp [write_response.eq_def, hfr] at h
  | ok p =>
    obtain ⟨enc, hs1⟩ := p
    cases hwb : writeBodyBytes r.body enc with
    | error e => simp [write_response.eq_def, hfr, hwb] at h
    | ok bodyBytes =>
      have hval : write_response r true =
          .ok ⟨responseHead r (responseFinalHeaders r hs1) ++ bodyBytes,
               responseHead r (responseFinalHeaders r hs1),
               responseFinalHeaders r hs1, enc,
               responseOutcome r enc (responseFinalHeaders r hs1)⟩ := by
        simp [write_response.eq_def, hfr, hwb]
      have hval2 : write_response r false =
          .ok ⟨responseHead r (responseFinalHeaders r hs1),
               responseHead r (responseFinalHeaders r hs1),
               responseFinalHeaders r hs1, enc,
               responseOutcome r enc (responseFinalHeaders r hs1)⟩ := by
        simp [write_response.eq_def, hfr]
      rw [hval] at h
      have ho := (Except.ok.inj h).symm
      constructor
      · rw [hval2, ho]
      · exact ⟨bodyBytes, by rw [ho]⟩

theorem c8_head_only_run_witness :
    write_response ⟨.http11, 200, [], false, .buffered "lol".data⟩ true =
      .ok ⟨("HTTP/1.1 200 OK\r\ncontent-length: 3\r\n\r\nlol").data,
           ("HTTP/1.1 200 OK\r\ncontent-length: 3\r\n\r\n").data,
           [(contentLengthName, "3".data)], .fixedLength 3, .keepAlive⟩ ∧
    (write_response ⟨.http11, 200, [], false, .buffered "lol".data⟩ false =
      .ok ⟨("HTTP/1.1 200 OK\r\ncontent-length: 3\r\n\r\n").data,
           ("HTTP/1.1 200 OK\r\ncontent-length: 3\r\n\r\n").data,
           [(contentLengthName, "3".data)], .fixedLength 3, .keepAlive⟩ ∧
     ∃ bodyPart, ("HTTP/1.1 200 OK\r\ncontent-length: 3\r\n\r\nlol").data =
       ("HTTP/1.1 200 OK\r\ncontent-length: 3\r\n\r\n").data ++ bodyPart) :=
  ⟨by decide,
   c8_head_only_run ⟨.http11, 200, [], false, .buffered "lol".data⟩
     ⟨("HTTP/1.1 200 OK\r\ncontent-length: 3\r\n\r\nlol").data,
      ("HTTP/1.1 200 OK\r\ncontent-length: 3\r\n\r\n").data,
      [(contentLengthName, "3".data)], .fixedLength 3, .keepAlive⟩
     (by decide)⟩

/- ### Connection loop (`src/server.rs` lines 436-531) -/

/-- `asks_for_close` (server.rs 448-452). -/
def asks_for_close (req : Request) : Bool :=
  connectionContains req.headers "close".data

/-- `asks_for_keep_alive` (server.rs 454-458). -/
def asks_for_keep_alive (req : Request) : Bool :=
  connectionContains req.headers "keep-alive".data

/-- `demands_close` (server.rs 463-467). -/
def demands_close (req : Request) : Bool :=
  match req.version with
  | .http09 => true
  | .http10 => !asks_for_keep_alive req
  | _ => asks_for_close req

/-- `expects_continue` (server.rs 469-473): the typed `Expect` header equals
`100-continue`. -/
def expectsContinue (req : Request) : Bool :=
  getHeaderValue req.headers "expect".data = some "100-continue".data

/-- `Response::builder().status(status).body(())`: the interim response of
the Expect/100 mediation; `()` is an empty body of known length 0. -/
def continueResponse (status : Nat) : Response :=
  ⟨.http11, status, [], false, .empty⟩

/-- What one loop iteration did after a successful parse: either a non-100
answer to `Expect: 100-continue` was written and the loop continues, or the
main response was written; `stop` records whether the loop breaks after it
(`Outcome` dispatch, server.rs 513-523). -/
inductive StepResult
| rejectedExpect (w : WriteResOut)
| completed (w : WriteResOut) (stop : Bool)
deriving DecidableEq

/-- The response post-processing and write of one loop iteration
(server.rs 491-523): force the request's version, inject
`Connection: close` for HTTP/1.0 without keep-alive, inject `Date` when
absent, suppress the body for HEAD (and for CONNECT unless 2xx), write, and
dispatch the outcome. -/
def serveRespond (req : Request) (res0 : Response) (now : Str) :
    Except IoErr StepResult :=
  let res1 := { res0 with version := req.version }
  let res2 :=
    if req.version = .http10 ∧ ¬asks_for_keep_alive req = true then
      { res1 with
        headers := insertHeader res1.headers connectionName "close".data }
    else res1
  let res3 :=
    if getHeaderValue res2.headers dateName = none then
      { res2 with headers := insertHeader res2.headers dateName now }
    else res2
  let wb :=
    if req.method = "HEAD".data then false
    else if req.method = "CONNECT".data then
      decide (200 ≤ res3.status ∧ res3.status < 300)
    else true
  match write_response res3 wb with
  | .error e => .error e
  | .ok w =>
    .ok (.completed w
      (match w.outcome with
       | .keepAlive => demands_close req
       | .close => true
       | .upgrade => true))

/-- One iteration of the `serve` loop after `parse_request` succeeded
(server.rs 443-523).  `shouldContinue` is what `app.should_continue`
returns, `handler` what `app.call` returns, `now` the `Date` value. -/
def serveStep (req : Request) (shouldContinue : Nat)
    (handler : Except IoErr Response) (now : Str) :
    Except IoErr StepResult :=
  if expectsContinue req = true ∧ ¬shouldContinue = 100 then
    match write_response (continueResponse shouldContinue) true with
    | .error e => .error e
    | .ok w => .ok (.rejectedExpect w)
  else
    match (if expectsContinue req then
        (write_response (continueResponse 100) true).map (fun _ => ())
      else .ok ()) with
    | .error e => .error e
    | .ok _ =>
      match handler with
      | .error e => .error e
      | .ok res0 => serveRespond req res0 now

/- ### Header lemmas for the loop -/

theorem getHeaderValue_insertHeader_self (hs : Headers) (n v : Str) :
    getHeaderValue (insertHeader hs n v) n = some v := by
  induction hs with
  | nil => simp [insertHeader, getHeaderValue]
  | cons p r ih =>
    by_cases hp : p.1 = n
    · simp [insertHeader, hp, getHeaderValue]
    · simp [insertHeader, hp, getHeaderValue, ih]

theorem getHeaderValue_filter_ne (hs : Headers) (n m : Str) (hne : ¬m = n) :
    getHeaderValue (hs.filter (fun p => ¬(p.1 = n))) m = getHeaderValue hs m := by
  induction hs with
  | nil => rfl
  | cons p r ih =>
    rw [List.filter_cons]
    by_cases hp : p.1 = n
    · have hpm : ¬p.1 = m := fun hc => hne (hp ▸ hc.symm)
      rw [if_neg (by simp [hp]), getHeaderValue, if_neg hpm]
      exact ih
    · rw [if_pos (by simp [hp])]
      by_cases hpm : p.1 = m
      · simp [getHeaderValue, hpm]
      · simp only [getHeaderValue, if_neg hpm]
        exact ih

theorem getHeaderValue_removeHeader_ne (hs : Headers) (n m : Str)
    (hne : ¬m = n) :
    getHeaderValue (removeHeader hs n) m = getHeaderValue hs m := by
  rw [removeHeader]
  exact getHeaderValue_filter_ne hs n m hne

theorem getHeaderValue_insertHeader_ne (hs : Headers) (n v m : Str)
    (hne : ¬m = n) :
    getHeaderValue (insertHeader hs n v) m = getHeaderValue hs m := by
  induction hs with
  | nil =>
    show (if n = m then some v else getHeaderValue [] m) = getHeaderValue [] m
    rw [if_neg (fun h => hne h.symm)]
  | cons p r ih =>
    by_cases hp : p.1 = n
    · rw [insertHeader, if_pos hp, getHeaderValue,
        if_neg (fun h => hne h.symm), getHeaderValue,
        if_neg (fun hc => hne (hp ▸ hc.symm))]
      exact getHeaderValue_filter_ne r n m hne
    · rw [insertHeader, if_neg hp]
      by_cases hpm : p.1 = m
      · simp [getHeaderValue, hpm]
      · simp only [getHeaderValue, if_neg hpm]
        exact ih

theorem connectionContains_close_of_value (hs : Headers)
    (h : getHeaderValue hs connectionName = some "close".data) :
    connectionContains hs "close".data = true := by
  rw [connectionContains.eq_def, h]
  decide

/-- Every `.ok` result of `responseFraming` keeps an exact
`Connection: close` header readable (branch four may install it, no branch
removes it). -/
theorem responseFraming_preserves_close (v : HVersion) (hs : Headers)
    (bl : Option Nat) (enc : Encoding) (hs1 : Headers)
    (hconn : getHeaderValue hs connectionName = some "close".data)
    (h : responseFraming v hs bl = .ok (enc, hs1)) :
    getHeaderValue hs1 connectionName = some "close".data := by
  rw [responseFraming.eq_def] at h
  split at h
  · have h2 := Except.ok.inj h
    injection h2 with he hh
    rw [← hh]
    exact hconn
  · split at h
    · split at h
      · split at h
        · cases h
        · have h2 := Except.ok.inj h
          injection h2 with he hh
          rw [← hh]
          exact hconn
      · have h2 := Except.ok.inj h
        injection h2 with he hh
        rw [← hh]
        exact hconn
      · have h2 := Except.ok.inj h
        injection h2 with he hh
        rw [← hh, getHeaderValue_insertHeader_ne _ _ _ _ (by decide)]
        exact hconn
      · cases h
    · split at h
      · have h2 := Except.ok.inj h
        injection h2 with he hh
        rw [← hh, getHeaderValue_insertHeader_ne _ _ _ _ (by decide)]
        exact hconn
      · have h2 := Except.ok.inj h
        injection h2 with he hh
        rw [← hh]
        split
        · exact hconn
        · exact getHeaderValue_insertHeader_self hs connectionName "close".data

/-- A successful `write_response` of a response whose headers read exactly
`Connection: close` emits headers that still read exactly
`Connection: close`. -/
theorem write_response_headers_close (r : Response) (wb : Bool)
    (w : WriteResOut)
    (hconn : getHeaderValue r.headers connectionName = some "close".data)
    (h : write_response r wb = .ok w) :
    getHeaderValue w.headers connectionName = some "close".data := by
  cases hfr : responseFraming r.version r.headers r.body.len with
  | error e => simp [write_response.eq_def, hfr] at h
  | ok p =>
    obtain ⟨enc, hs1⟩ := p
    have hs1conn : getHeaderValue hs1 connectionName = some "close".data :=
      responseFraming_preserves_close r.version r.headers r.body.len enc hs1
        hconn hfr
    cases hwb : (if wb then writeBodyBytes r.body enc
        else Except.ok ([] : Str)) with
    | error e => simp [write_response.eq_def, hfr, hwb] at h
    | ok bodyBytes =>
      have hval : write_response r wb =
          .ok ⟨responseHead r (responseFinalHeaders r hs1) ++ bodyBytes,
               responseHead r (responseFinalHeaders r hs1),
               responseFinalHeaders r hs1, enc,
               responseOutcome r enc (responseFinalHeaders r hs1)⟩ := by
        simp [write_response.eq_def, hfr, hwb]
      rw [hval] at h
      have ho := (Except.ok.inj h).symm
      rw [ho]
      show getHeaderValue (responseFinalHeaders r hs1) connectionName =
        some "close".data
      rw [responseFinalHeaders]
      split
      · rw [getHeaderValue_removeHeader_ne _ _ _ (by decide)]
        exact hs1conn
      · exact hs1conn

/-- The tail of a loop iteration for an HTTP/1.0 request without keep-alive:
`Connection: close` is injected (server.rs 497-500), survives writing, and
the dispatch always breaks the loop. -/
theorem serveRespond_http10_close (req : Request) (res0 : Response)
    (now : Str) (st : StepResult)
    (hv : req.version = .http10)
    (hka : asks_for_keep_alive req = false)
    (h : serveRespond req res0 now = .ok st) :
    ∃ w, st = .completed w true ∧
      getHeaderValue w.headers connectionName = some "close".data := by
  simp only [serveRespond] at h
  rw [if_pos (⟨hv, by rw [hka]; decide⟩ :
    req.version = .http10 ∧ ¬asks_for_keep_alive req = true)] at h
  split at h
  · cases h
  · rename_i w hw
    refine ⟨w, ?_, ?_⟩
    · have h2 := (Except.ok.inj h).symm
      rw [h2]
      have hstop : (match w.outcome with
          | Outcome.keepAlive => demands_close req
          | Outcome.close => true
          | Outcome.upgrade => true) = true := by
        cases w.outcome with
        | keepAlive => simp [demands_close, hv, hka]
        | close => rfl
        | upgrade => rfl
      rw [hstop]
    · apply write_response_headers_close _ _ _ _ hw
      split
      · show getHeaderValue (insertHeader
          (insertHeader res0.headers connectionName "close".data)
          dateName now) connectionName = some "close".data
        rw [getHeaderValue_insertHeader_ne _ _ _ _ (by decide)]
        exact getHeaderValue_insertHeader_self _ _ _
      · exact getHeaderValue_insertHeader_self _ _ _

/-- C7, corrected.  `demands_close` holds exactly as claimed; and an
HTTP/1.0 request without `Connection: keep-alive` that is not rejected at
the Expect/100 stage gets `Connection: close` injected into its response
before writing, and the loop terminates after that response.  (A rejected
`Expect: 100-continue` request continues the loop without any injection,
see the counterexample.) -/
theorem c7_demands_close_and_http10_close (req1 req : Request) (sc : Nat)
    (handler : Except IoErr Response) (now : Str) (st : StepResult)
    (hv : req.version = .http10)
    (hka : connectionContains req.headers "keep-alive".data = false)
    (hexp : ¬(expectsContinue req = true ∧ ¬sc = 100))
    (hstep : serveStep req sc handler now = .ok st) :
    (demands_close req1 = true ↔
      (req1.version = .http09 ∨
       (req1.version = .http10 ∧
        connectionContains req1.headers "keep-alive".data = false) ∨
       (req1.version = .http11 ∧
        connectionContains req1.headers "close".data = true))) ∧
    ∃ w, st = .completed w true ∧
      getHeaderValue w.headers connectionName = some "close".data := by
  constructor
  · cases hv1 : req1.version <;>
      simp [demands_close, asks_for_keep_alive, asks_for_close, hv1]
  · rw [serveStep.eq_def, if_neg hexp] at hstep
    by_cases hec : expectsContinue req = true
    · obtain ⟨w0, hw0⟩ :
          ∃ w0, write_response (continueResponse 100) true = .ok w0 :=
        ⟨_, rfl⟩
      rw [if_pos hec, hw0] at hstep
      simp only [Except.map] at hstep
      cases hh : handler with
      | error e => rw [hh] at hstep; simp at hstep
      | ok res0 =>
        rw [hh] at hstep
        exact serveRespond_http10_close req res0 now st hv hka hstep
    · rw [if_neg hec] at hstep
      cases hh : handler with
      | error e => rw [hh] at hstep; simp at hstep
      | ok res0 =>
        rw [hh] at hstep
        exact serveRespond_http10_close req res0 now st hv hka hstep

theorem c7_demands_close_and_http10_close_witness :
    ((⟨"GET".data, "/".data, .http10, [], .empty⟩ : Request).version =
      .http10 ∧
     connectionContains ([] : Headers) "keep-alive".data = false ∧
     ¬(expectsContinue ⟨"GET".data, "/".data, .http10, [], .empty⟩ = true ∧
       ¬(100 : Nat) = 100) ∧
     serveStep ⟨"GET".data, "/".data, .http10, [], .empty⟩ 100
       (.ok ⟨.http11, 200, [], false, .empty⟩) "today".data =
       .ok (.completed
         ⟨("HTTP/1.0 200 OK\r\nconnection: close\r\ndate: today\r\ncontent-length: 0\r\n\r\n").data,
          ("HTTP/1.0 200 OK\r\nconnection: close\r\ndate: today\r\ncontent-length: 0\r\n\r\n").data,
          [(connectionName, "close".data), (dateName, "today".data),
           (contentLengthName, "0".data)], .fixedLength 0, .close⟩ true)) ∧
    ((demands_close ⟨"GET".data, "/".data, .http10, [], .empty⟩ = true ↔
      ((⟨"GET".data, "/".data, .http10, [], .empty⟩ : Request).version =
        .http09 ∨
       ((⟨"GET".data, "/".data, .http10, [], .empty⟩ : Request).version =
         .http10 ∧
        connectionContains ([] : Headers) "keep-alive".data = false) ∨
       ((⟨"GET".data, "/".data, .http10, [], .empty⟩ : Request).version =
         .http11 ∧
        connectionContains ([] : Headers) "close".data = true))) ∧
     ∃ w, (StepResult.completed
         ⟨("HTTP/1.0 200 OK\r\nconnection: close\r\ndate: today\r\ncontent-length: 0\r\n\r\n").data,
          ("HTTP/1.0 200 OK\r\nconnection: close\r\ndate: today\r\ncontent-length: 0\r\n\r\n").data,
          [(connectionName, "close".data), (dateName, "today".data),
           (contentLengthName, "0".data)], .fixedLength 0, .close⟩ true) =
        .completed w true ∧
      getHeaderValue w.headers connectionName = some "close".data) :=
  ⟨by decide,
   c7_demands_close_and_http10_close
     ⟨"GET".data, "/".data, .http10, [], .empty⟩
     ⟨"GET".data, "/".data, .http10, [], .empty⟩ 100
     (.ok ⟨.http11, 200, [], false, .empty⟩) "today".data
     (.completed
       ⟨("HTTP/1.0 200 OK\r\nconnection: close\r\ndate: today\r\ncontent-length: 0\r\n\r\n").data,
        ("HTTP/1.0 200 OK\r\nconnection: close\r\ndate: today\r\ncontent-length: 0\r\n\r\n").data,
        [(connectionName, "close".data), (dateName, "today".data),
         (contentLengthName, "0".data)], .fixedLength 0, .close⟩ true)
     (by decide) (by decide) (by decide) (by decide)⟩

/-- C7 counterexample: an HTTP/1.0 request without keep-alive but with
`Expect: 100-continue` that the handler rejects (status 417).  The loop
writes the rejection response without injecting `Connection: close` and
continues instead of terminating (server.rs 482-487: the non-100 arm ends
in `continue`). -/
theorem c7_counterexample :
    (⟨"POST".data, "/x".data, .http10,
      [("expect".data, "100-continue".data)], .empty⟩ : Request).version =
      .http10 ∧
    connectionContains [("expect".data, "100-continue".data)]
      "keep-alive".data = false ∧
    serveStep ⟨"POST".data, "/x".data, .http10,
      [("expect".data, "100-continue".data)], .empty⟩ 417
      (.ok ⟨.http11, 200, [], false, .empty⟩) "today".data =
      .ok (.rejectedExpect
        ⟨("HTTP/1.1 417 Expectation Failed\r\ncontent-length: 0\r\n\r\n").data,
         ("HTTP/1.1 417 Expectation Failed\r\ncontent-length: 0\r\n\r\n").data,
         [(contentLengthName, "0".data)], .fixedLength 0, .keepAlive⟩) ∧
    getHeaderValue [(contentLengthName, "0".data)] connectionName = none := by
  decide

/- ### Parsing (`src/request.rs` lines 34-105, `src/response.rs` lines
26-98).  The header-block accumulation models the `read_until(b'\n')` loop;
start-line and header-line parsing model `httparse`'s tolerant HTTP/1
parser on the inputs the claims quantify over (see the doc comments for the
deliberate simplifications). -/

/-- `read_until(b'\n')`: the shortest prefix through the next newline
(the whole remainder at EOF), plus the rest. -/
def readLine : Str → Str × Str
| [] => ([], [])
| c :: cs =>
  if c = '\n' then ([c], cs)
  else
    match readLine cs with
    | (l, r) => (c :: l, r)

/-- `[.., b'\r', b'\n', b'\r', b'\n']`. -/
def hasCrlfCrlfEnd (s : Str) : Bool :=
  match s.reverse with
  | c1 :: c2 :: c3 :: c4 :: _ =>
    c1 = '\n' && c2 = '\r' && c3 = '\n' && c4 = '\r'
  | _ => false

/-- `[.., b'\n', b'\n']`. -/
def hasLfLfEnd (s : Str) : Bool :=
  match s.reverse with
  | c1 :: c2 :: _ => c1 = '\n' && c2 = '\n'
  | _ => false

/-- The header-block loop: accumulate lines until the buffer ends with
`CRLF CRLF` or `LF LF`, or a zero-byte read signals EOF.  Each iteration
consumes at least one byte, so `input.length` fuel always suffices. -/
def headerBlockAux : Nat → Str → Str → Str × Str
| 0, acc, input => (acc, input)
| fuel + 1, acc, input =>
  match readLine input with
  | ([], _) => (acc, input)
  | (line, rest) =>
    if hasCrlfCrlfEnd (acc ++ line) ∨ hasLfLfEnd (acc ++ line) = true then
      (acc ++ line, rest)
    else headerBlockAux fuel (acc ++ line) rest

def headerBlock (input : Str) : Str × Str :=
  headerBlockAux input.length [] input

/-- `httparse`'s token characters (RFC 7230 tchar), by code point. -/
def isTokenChar (c : Char) : Bool :=
  (48 ≤ c.toNat ∧ c.toNat ≤ 57) ∨ (65 ≤ c.toNat ∧ c.toNat ≤ 90) ∨
  (97 ≤ c.toNat ∧ c.toNat ≤ 122) ∨
  c.toNat ∈ ([33, 35, 36, 37, 38, 39, 42, 43, 45, 46, 94, 95, 96, 124,
    126] : List Nat)

/-- `httparse`'s request-target characters: visible bytes above space. -/
def isUriChar (c : Char) : Bool := 33 ≤ c.toNat ∧ ¬c.toNat = 127

/-- `httparse` accepts exactly `HTTP/1.0` and `HTTP/1.1` (any other version
text is an `httparse::Error`, collapsed into `ParseError::Invalid`; the
source's `UnsupportedHttpVersion` arm is unreachable through it). -/
def parseVersion (s : Str) : Except ParseError HVersion :=
  if s = "HTTP/1.0".data then .ok .http10
  else if s = "HTTP/1.1".data then .ok .http11
  else .error .invalid

/-- The request start line `METHOD SP TARGET SP VERSION CRLF`.  A line with
no terminator is reported as `incompleteRequest` (httparse `Partial`
leaving fields unset); other malformed shapes as `invalid`. -/
def parseRequestLine (l : Str) : Except ParseError (Str × Str × HVersion) :=
  let method := l.takeWhile (fun c => ¬c = ' ')
  match l.drop method.length with
  | ' ' :: r1 =>
    let uri := r1.takeWhile (fun c => ¬c = ' ')
    match r1.drop uri.length with
    | ' ' :: r2 =>
      let vs := r2.takeWhile (fun c => ¬c = '\r' ∧ ¬c = '\n')
      let r3 := r2.drop vs.length
      if r3 = [] then .error .incompleteRequest
      else if method = [] ∨ ¬method.all isTokenChar = true ∨ uri = [] ∨
          ¬uri.all isUriChar = true ∨ ¬(r3 = CRLF ∨ r3 = ['\n']) then
        .error .invalid
      else (parseVersion vs).map (fun v => (method, uri, v))
    | _ => .error (if r1.drop uri.length = [] then .incompleteRequest
        else .invalid)
  | _ => .error (if l.drop method.length = [] then .incompleteRequest
      else .invalid)

/-- The status line `VERSION SP 3DIGIT [SP reason] CRLF`.  The reason phrase
is skipped, as the source discards it (httparse's reason-byte validation is
not modelled; the writer only emits valid reasons). -/
def parseStatusLine (l : Str) : Except ParseError (HVersion × Nat) :=
  let vs := l.takeWhile (fun c => ¬c = ' ')
  match parseVersion vs with
  | .error e => .error e
  | .ok v =>
    match l.drop vs.length with
    | ' ' :: d1 :: d2 :: d3 :: r2 =>
      match decDigitVal d1, decDigitVal d2, decDigitVal d3 with
      | some a, some b, some c =>
        match r2 with
        | ' ' :: _ => .ok (v, a * 100 + b * 10 + c)
        | '\r' :: '\n' :: [] => .ok (v, a * 100 + b * 10 + c)
        | '\n' :: [] => .ok (v, a * 100 + b * 10 + c)
        | _ => .error .invalid
      | _, _, _ => .error .invalid
    | _ => .error .invalid

/-- ASCII lowercasing, as `http::HeaderName` applies to every header name
entering the `HeaderMap`. -/
def lowerChar (c : Char) : Char :=
  if 65 ≤ c.toNat ∧ c.toNat ≤ 90 then Char.ofNat (c.toNat + 32) else c

/-- One `name: value CRLF` header line.  Whitespace after the colon is
skipped, the value runs to the line terminator (trailing whitespace is kept;
the theorems below only quantify over values without it).  The name is
lowercased as `http::HeaderName` does when the builder folds the parsed
headers into the `HeaderMap`. -/
def parseHeaderLine (l : Str) : Except ParseError (Str × Str) :=
  let name := l.takeWhile (fun c => ¬c = ':')
  match l.drop name.length with
  | ':' :: r1 =>
    let value := (r1.dropWhile isHWS).takeWhile
      (fun c => ¬c = '\r' ∧ ¬c = '\n')
    let r2 := (r1.dropWhile isHWS).drop value.length
    if name = [] ∨ ¬name.all isTokenChar = true ∨ ¬(r2 = CRLF ∨ r2 = ['\n'])
    then .error .invalid
    else .ok (name.map lowerChar, value)
  | _ => .error .invalid

/-- Header lines until the blank line or end of buffer. -/
def parseHeaderLinesAux : Nat → Str → Except ParseError Headers
| 0, _ => .ok []
| fuel + 1, s =>
  match readLine s with
  | ([], _) => .ok []
  | (l, r) =>
    if l = CRLF ∨ l = ['\n'] then .ok []
    else
      match parseHeaderLine l with
      | .error e => .error e
      | .ok h => (parseHeaderLinesAux fuel r).map (fun hs => h :: hs)

/-- The request head: start line, then headers.  `httparse` is handed a
64-slot array; a 65th header is `Error::TooManyHeaders`, an
`httparse::Error` collapsed into `ParseError::Invalid`. -/
def parseReqHead (block : Str) :
    Except ParseError (Str × Str × HVersion × Headers) :=
  match readLine block with
  | (l1, r1) =>
    match parseRequestLine l1 with
    | .error e => .error e
    | .ok (m, u, v) =>
      match parseHeaderLinesAux r1.length r1 with
      | .error e => .error e
      | .ok hs =>
        if 64 < hs.length then .error .invalid else .ok (m, u, v, hs)

/-- The response head: status line (`StatusCode::from_u16` rejects codes
below 100, surfacing as `IncompleteRequest` through the `ok_or`), then
headers with the same 64-slot limit. -/
def parseResHead (block : Str) :
    Except ParseError (HVersion × Nat × Headers) :=
  match readLine block with
  | (l1, r1) =>
    match parseStatusLine l1 with
    | .error e => .error e
    | .ok (v, code) =>
      if code < 100 then .error .incompleteRequest
      else
        match parseHeaderLinesAux r1.length r1 with
        | .error e => .error e
        | .ok hs =>
          if 64 < hs.length then .error .invalid else .ok (v, code, hs)

/-- `httparse::parse_chunk_size` on one line: hex digits, then the line
terminator or a `;`-prefixed chunk extension (tolerated and ignored). -/
def parseChunkSize (line : Str) : Option Nat :=
  let digits := line.takeWhile (fun c => (hexDigitVal c).isSome)
  match parseDigits hexDigitVal 16 digits with
  | none => none
  | some n =>
    match line.drop digits.length with
    | '\r' :: '\n' :: [] => some n
    | '\n' :: [] => some n
    | ';' :: _ => some n
    | _ => none

/-- `Iterator for ChunkedReader` (`src/request.rs` lines 222-248) run to
completion: read a size line, stop at size 0 or any parse failure or EOF,
otherwise read exactly `size` bytes (a short read ends the stream with no
chunk, as `read_exact(..).ok()?` does) and consume the trailing line. -/
def decodeChunkedAux : Nat → Str → List Str
| 0, _ => []
| fuel + 1, s =>
  match readLine s with
  | ([], _) => []
  | (line, rest) =>
    match parseChunkSize line with
    | none => []
    | some 0 => []
    | some (n + 1) =>
      if rest.length < n + 1 then []
      else (rest.take (n + 1)) :: decodeChunkedAux fuel (readLine (rest.drop (n + 1))).2

def decodeChunked (s : Str) : List Str := decodeChunkedAux s.length s

/-- Modelled from the spec: `typed_try_get::<TransferEncoding>()` (external
`headers` crate); in this model any present value decodes, so the typed
decode itself never fails. -/
def tryGetTransferEncoding (hs : Headers) : Except ParseError (Option Str) :=
  .ok (getHeaderValue hs transferEncodingName)

/-- The body framing decision of `parse_request` (`src/request.rs` lines
85-102). -/
def bodyFromHeadersReq (hs : Headers) (rest : Str) :
    Except ParseError Body :=
  match tryGetTransferEncoding hs with
  | .error e => .error e
  | .ok (some v) =>
    if v = "chunked".data then
      .ok (.iter ((decodeChunked rest).map (fun d => .ok (.data d))))
    else .error .invalidTransferEncoding
  | .ok none =>
    match tryGetContentLength hs with
    | .error e => .error e
    | .ok (some n) =>
      if n < 1024 then
        if rest.length < n then
          .error (.io ⟨"failed to fill whole buffer".data⟩)
        else .ok (.buffered (rest.take n))
      else .ok (.reader rest (some n))
    | .ok none => .ok .empty

/-- The body framing decision of `parse_response` (`src/response.rs` lines
72-95): as for requests, plus the close-delimited case. -/
def bodyFromHeadersRes (hs : Headers) (rest : Str) :
    Except ParseError Body :=
  match tryGetTransferEncoding hs with
  | .error e => .error e
  | .ok (some v) =>
    if v = "chunked".data then
      .ok (.iter ((decodeChunked rest).map (fun d => .ok (.data d))))
    else .error .invalidTransferEncoding
  | .ok none =>
    match tryGetContentLength hs with
    | .error e => .error e
    | .ok (some n) =>
      if n < 1024 then
        if rest.length < n then
          .error (.io ⟨"failed to fill whole buffer".data⟩)
        else .ok (.buffered (rest.take n))
      else .ok (.reader rest (some n))
    | .ok none =>
      if connectionContains hs "close".data then .ok (.reader rest none)
      else .ok .empty

/-- `parse_request` (`src/request.rs` lines 34-105). -/
def parse_request (wire : Str) : Except ParseError Request :=
  match headerBlock wire with
  | (buf, rest) =>
    if buf = [] then .error .connectionClosed
    else
      match parseReqHead buf with
      | .error e => .error e
      | .ok (m, u, v, hs) =>
        match bodyFromHeadersReq hs rest with
        | .error e => .error e
        | .ok body => .ok ⟨m, u, v, hs, body⟩

/-- `parse_response` (`src/response.rs` lines 26-98); parsed responses carry
no upgrade extension. -/
def parse_response (wire : Str) : Except ParseError Response :=
  match headerBlock wire with
  | (buf, rest) =>
    if buf = [] then .error .incompleteRequest
    else
      match parseResHead buf with
      | .error e => .error e
      | .ok (v, code, hs) =>
        match bodyFromHeadersRes hs rest with
        | .error e => .error e
        | .ok body => .ok ⟨v, code, hs, false, body⟩

/- ### Well-formedness of messages on the wire -/

/-- A header name as stored in a `HeaderMap`: nonempty, token characters,
lowercase. -/
def nameOk (n : Str) : Bool :=
  ¬n = [] ∧ n.all (fun c => isTokenChar c ∧ ¬(65 ≤ c.toNat ∧ c.toNat ≤ 90))

/-- A header value that survives the tolerant parse unchanged: no CR/LF and
no leading or trailing blank (httparse strips leading blanks; this model
keeps trailing ones that httparse would strip, so they are excluded too). -/
def valueOk (v : Str) : Bool :=
  v.all (fun c => ¬c = '\r' ∧ ¬c = '\n') &&
  (match v with | [] => true | c :: _ => !isHWS c) &&
  (match v.reverse with | [] => true | c :: _ => !isHWS c)

def headerLinesOk (hs : Headers) : Bool :=
  hs.all (fun p => nameOk p.1 ∧ valueOk p.2)

def methodOk (m : Str) : Bool := ¬m = [] ∧ m.all isTokenChar

def uriOk (u : Str) : Bool := ¬u = [] ∧ u.all isUriChar

/- ### Line lemmas -/

theorem readLine_append (core rest : Str) (h : ∀ x ∈ core, ¬x = '\n') :
    readLine (core ++ '\n' :: rest) = (core ++ ['\n'], rest) := by
  induction core with
  | nil => simp [readLine]
  | cons c cs ih =>
    have hc : ¬c = '\n' := h c (by simp)
    have hcs : ∀ x ∈ cs, ¬x = '\n' := fun x hx => h x (by simp [hx])
    simp [readLine, hc, ih hcs]

theorem tokenChar_not_special {c : Char} (h : isTokenChar c = true) :
    ¬c = '\r' ∧ ¬c = '\n' ∧ ¬c = ' ' ∧ ¬c = ':' := by
  refine ⟨?_, ?_, ?_, ?_⟩ <;> (intro hc; subst hc; revert h; decide)

theorem uriChar_not_special {c : Char} (h : isUriChar c = true) :
    ¬c = '\r' ∧ ¬c = '\n' ∧ ¬c = ' ' := by
  refine ⟨?_, ?_, ?_⟩ <;> (intro hc; subst hc; revert h; decide)

/-- Rendered lines: each `core ++ CRLF`. -/
def linesStr (cores : List Str) : Str :=
  (cores.map (fun c => c ++ CRLF)).flatten

/-- A line core: nonempty, no CR, no LF. -/
def coreOk (c : Str) : Prop :=
  ¬c = [] ∧ ∀ x ∈ c, ¬x = '\r' ∧ ¬x = '\n'

def endsCRLF (s : Str) : Bool :=
  match s.reverse with
  | a :: b :: _ => a = '\n' && b = '\r'
  | _ => false

theorem endsCRLF_elim (s : Str) (h : endsCRLF s = true) :
    ∃ t, s.reverse = '\n' :: '\r' :: t := by
  rw [endsCRLF] at h
  split at h
  · rename_i a b t heq
    simp at h
    exact ⟨t, by rw [heq, h.1, h.2]⟩
  · cases h

theorem endsCRLF_append (acc core : Str) :
    endsCRLF (acc ++ (core ++ CRLF)) = true := by
  have hrev : (acc ++ (core ++ CRLF)).reverse =
      '\n' :: '\r' :: (core.reverse ++ acc.reverse) := by
    simp [CRLF, List.reverse_append]
  rw [endsCRLF, hrev]
  rfl

theorem term_not_fired (acc core : Str) (hc : coreOk core) :
    ¬(hasCrlfCrlfEnd (acc ++ (core ++ CRLF)) = true ∨
      hasLfLfEnd (acc ++ (core ++ CRLF)) = true) := by
  obtain ⟨hne, hx⟩ := hc
  match hcore : core.reverse with
  | [] => exact absurd (by simpa using congrArg List.reverse hcore) hne
  | d :: t =>
    have hd : d ∈ core := by
      rw [← List.mem_reverse, hcore]
      simp
    have hdr := hx d hd
    have hrev : (acc ++ (core ++ CRLF)).reverse =
        '\n' :: '\r' :: d :: (t ++ acc.reverse) := by
      simp [CRLF, List.reverse_append, hcore]
    intro hcon
    rcases hcon with hcon | hcon
    · rw [hasCrlfCrlfEnd, hrev] at hcon
      cases hta : t ++ acc.reverse with
      | nil => rw [hta] at hcon; simp at hcon
      | cons e t2 => rw [hta] at hcon; simp [hdr.2] at hcon
    · rw [hasLfLfEnd, hrev] at hcon
      simp at hcon

theorem headerBlockAux_lines (cores : List Str) :
    ∀ (fuel : Nat) (acc rest : Str),
    (∀ c ∈ cores, coreOk c) →
    cores.length < fuel →
    (endsCRLF acc = true ∨ (acc = [] ∧ ¬cores = [])) →
    headerBlockAux fuel acc (linesStr cores ++ (CRLF ++ rest)) =
      (acc ++ (linesStr cores ++ CRLF), rest) := by
  induction cores with
  | nil =>
    intro fuel acc rest hcores hfuel hacc
    cases fuel with
    | zero => exact absurd hfuel (Nat.not_lt_zero _)
    | succ f =>
      have haccE : endsCRLF acc = true := by
        rcases hacc with h | ⟨-, hne⟩
        · exact h
        · exact absurd rfl hne
      obtain ⟨t, ht⟩ := endsCRLF_elim acc haccE
      have hterm : hasCrlfCrlfEnd (acc ++ CRLF) = true := by
        have hrev : (acc ++ CRLF).reverse = '\n' :: '\r' :: '\n' :: '\r' :: t := by
          simp [CRLF, List.reverse_append, ht]
        rw [hasCrlfCrlfEnd, hrev]
        simp
      have hterm2 : hasCrlfCrlfEnd (acc ++ ['\r', '\n']) = true := hterm
      show headerBlockAux (f + 1) acc (([] : Str) ++ ('\r' :: '\n' :: rest)) = _
      rw [List.nil_append, headerBlockAux]
      have hread : readLine ('\r' :: '\n' :: rest) = (['\r', '\n'], rest) := by
        simp [readLine]
      simp only [hread]
      rw [if_pos (Or.inl hterm2)]
      simp [linesStr, CRLF]
  | cons c cs ih =>
    intro fuel acc rest hcores hfuel hacc
    cases fuel with
    | zero => exact absurd hfuel (Nat.not_lt_zero _)
    | succ f =>
      have hc : coreOk c := hcores c (by simp)
      cases hcc2 : c with
      | nil =>
        rw [hcc2] at hc
        exact absurd rfl hc.1
      | cons x xs =>
        rw [hcc2] at hc hcores hfuel
        have hinput : linesStr ((x :: xs) :: cs) ++ (CRLF ++ rest) =
            (x :: (xs ++ ['\r'])) ++ ('\n' :: (linesStr cs ++ (CRLF ++ rest))) := by
          simp [linesStr, CRLF]
        have hnolf : ∀ y ∈ x :: (xs ++ ['\r']), ¬y = '\n' := by
          intro y hy
          rcases List.mem_cons.mp hy with hy | hy
          · rw [hy]
            exact (hc.2 x (by simp)).2
          · rcases List.mem_append.mp hy with hy | hy
            · exact (hc.2 y (by simp [hy])).2
            · simp at hy
              subst hy
              decide
        have hread := readLine_append (x :: (xs ++ ['\r']))
          (linesStr cs ++ (CRLF ++ rest)) hnolf
        have hline : (x :: (xs ++ ['\r'])) ++ ['\n'] = x :: (xs ++ CRLF) := by
          simp [CRLF]
        rw [hline] at hread
        rw [hinput, headerBlockAux]
        simp only [hread]
        have hterm := term_not_fired acc (x :: xs) hc
        simp only [List.cons_append] at hterm
        rw [if_neg hterm]
        have hend := endsCRLF_append acc (x :: xs)
        simp only [List.cons_append] at hend
        have hrec := ih f (acc ++ (x :: (xs ++ CRLF))) rest
          (fun y hy => hcores y (by simp [hy]))
          (by simp at hfuel ⊢; omega)
          (Or.inl hend)
        rw [hrec]
        simp [linesStr, CRLF]

/- ### Start-line and header-line inversion -/

theorem takeWhile_append_cons (p : Char → Bool) (a : Str) (y : Char)
    (b : Str) (ha : ∀ x ∈ a, p x = true) (hy : p y = false) :
    (a ++ y :: b).takeWhile p = a := by
  induction a with
  | nil => simp [List.takeWhile_cons, hy]
  | cons c cs ih =>
    rw [List.cons_append, List.takeWhile_cons_of_pos (ha c (by simp)),
      ih (fun x hx => ha x (by simp [hx]))]

theorem parseVersion_elim (vs : Str) (v : HVersion)
    (h : parseVersion vs = .ok v) :
    (vs = "HTTP/1.0".data ∧ v = .http10) ∨
    (vs = "HTTP/1.1".data ∧ v = .http11) := by
  rw [parseVersion] at h
  split_ifs at h with h1 h2
  · exact Or.inl ⟨h1, (Except.ok.inj h).symm⟩
  · exact Or.inr ⟨h2, (Except.ok.inj h).symm⟩

theorem lowerChar_map_id (n : Str)
    (h : ∀ x ∈ n, ¬(65 ≤ x.toNat ∧ x.toNat ≤ 90)) : n.map lowerChar = n := by
  induction n with
  | nil => rfl
  | cons c cs ih =>
    have hc : lowerChar c = c := by
      rw [lowerChar, if_neg (h c (by simp))]
    simp only [List.map_cons, hc, ih (fun x hx => h x (by simp [hx]))]

theorem nameOk_chars {n : Str} (hn : nameOk n = true) :
    ¬n = [] ∧ ∀ x ∈ n, isTokenChar x = true ∧
      ¬(65 ≤ x.toNat ∧ x.toNat ≤ 90) := by
  rw [nameOk] at hn
  simp only [decide_eq_true_eq, Bool.and_eq_true, List.all_eq_true] at hn
  obtain ⟨h1, h2⟩ := hn
  refine ⟨by simpa using h1, fun x hx => ?_⟩
  have := h2 x hx
  simpa using this

theorem valueOk_chars {v : Str} (hv : valueOk v = true) :
    (∀ x ∈ v, ¬x = '\r' ∧ ¬x = '\n') ∧
    (∀ c cs, v = c :: cs → isHWS c = false) := by
  rw [valueOk.eq_def] at hv
  simp only [Bool.and_eq_true] at hv
  obtain ⟨⟨h1, h2⟩, h3⟩ := hv
  constructor
  · intro x hx
    have := List.all_eq_true.mp h1 x hx
    simpa using this
  · intro c cs hc
    subst hc
    simpa using h2

theorem methodOk_chars {m : Str} (hm : methodOk m = true) :
    ¬m = [] ∧ ∀ x ∈ m, isTokenChar x = true := by
  rw [methodOk] at hm
  simp only [decide_eq_true_eq, Bool.and_eq_true, List.all_eq_true] at hm
  exact ⟨by simpa using hm.1, fun x hx => hm.2 x hx⟩

theorem uriOk_chars {u : Str} (hu : uriOk u = true) :
    ¬u = [] ∧ ∀ x ∈ u, isUriChar x = true := by
  rw [uriOk] at hu
  simp only [decide_eq_true_eq, Bool.and_eq_true, List.all_eq_true] at hu
  exact ⟨by simpa using hu.1, fun x hx => hu.2 x hx⟩

theorem parseRequestLine_inv (m u vs : Str) (v : HVersion)
    (hm : methodOk m = true) (hu : uriOk u = true)
    (hvs : parseVersion vs = .ok v) :
    parseRequestLine (m ++ ' ' :: (u ++ ' ' :: (vs ++ CRLF))) =
      .ok (m, u, v) := by
  obtain ⟨hmne, hmtk⟩ := methodOk_chars hm
  obtain ⟨hune, hutk⟩ := uriOk_chars hu
  have hvs2 := parseVersion_elim vs v hvs
  have h1 : (m ++ ' ' :: (u ++ ' ' :: (vs ++ CRLF))).takeWhile
      (fun c => ¬c = ' ') = m := by
    apply takeWhile_append_cons
    · intro x hx
      simp [(tokenChar_not_special (hmtk x hx)).2.2.1]
    · simp
  have h2 : (m ++ ' ' :: (u ++ ' ' :: (vs ++ CRLF))).drop m.length =
      ' ' :: (u ++ ' ' :: (vs ++ CRLF)) := List.drop_left m _
  have h3 : (u ++ ' ' :: (vs ++ CRLF)).takeWhile (fun c => ¬c = ' ') = u := by
    apply takeWhile_append_cons
    · intro x hx
      simp [(uriChar_not_special (hutk x hx)).2.2]
    · simp
  have h4 : (u ++ ' ' :: (vs ++ CRLF)).drop u.length = ' ' :: (vs ++ CRLF) :=
    List.drop_left u _
  have hvsnc : ∀ x ∈ vs, (fun c => decide (¬c = '\r' ∧ ¬c = '\n')) x = true := by
    rcases hvs2 with ⟨hveq, -⟩ | ⟨hveq, -⟩ <;> (subst hveq; decide)
  have h5 : (vs ++ CRLF).takeWhile
      (fun c => ¬c = '\r' ∧ ¬c = '\n') = vs := by
    show (vs ++ '\r' :: ['\n']).takeWhile _ = vs
    apply takeWhile_append_cons _ _ _ _ hvsnc
    simp
  have h6 : (vs ++ CRLF).drop vs.length = CRLF := List.drop_left vs _
  rw [parseRequestLine]
  simp only [h1, h2]
  simp only [h3, h4, h5, h6]
  rw [if_neg (by simp [CRLF])]
  rw [if_neg (by
    simp only [not_or]
    refine ⟨hmne, ?_, hune, ?_, ?_⟩
    · intro hcon
      exact hcon (List.all_eq_true.mpr hmtk)
    · intro hcon
      exact hcon (List.all_eq_true.mpr hutk)
    · simp)]
  rw [hvs]
  rfl

theorem parseHeaderLine_inv (n v : Str) (hn : nameOk n = true)
    (hv : valueOk v = true) :
    parseHeaderLine (n ++ ':' :: ' ' :: (v ++ CRLF)) = .ok (n, v) := by
  obtain ⟨hnne, hntk⟩ := nameOk_chars hn
  obtain ⟨hvnc, hvhd⟩ := valueOk_chars hv
  have h1 : (n ++ ':' :: ' ' :: (v ++ CRLF)).takeWhile
      (fun c => ¬c = ':') = n := by
    apply takeWhile_append_cons
    · intro x hx
      simp [(tokenChar_not_special (hntk x hx).1).2.2.2]
    · simp
  have h2 : (n ++ ':' :: ' ' :: (v ++ CRLF)).drop n.length =
      ':' :: ' ' :: (v ++ CRLF) := List.drop_left n _
  have h3 : (' ' :: (v ++ CRLF)).dropWhile isHWS = v ++ CRLF := by
    rw [List.dropWhile_cons_of_pos (by decide)]
    cases hv2 : v with
    | nil => decide
    | cons c cs =>
      have := hvhd c cs hv2
      rw [List.cons_append, List.dropWhile_cons_of_neg (by simp [this])]
  have h4 : (v ++ CRLF).takeWhile
      (fun c => ¬c = '\r' ∧ ¬c = '\n') = v := by
    show (v ++ '\r' :: ['\n']).takeWhile _ = v
    apply takeWhile_append_cons
    · intro x hx
      simp [(hvnc x hx).1, (hvnc x hx).2]
    · simp
  have h5 : (v ++ CRLF).drop v.length = CRLF := List.drop_left v _
  rw [parseHeaderLine]
  simp only [h1, h2, h3, h4, h5]
  rw [if_neg (by
    simp only [not_or]
    refine ⟨hnne, ?_, ?_⟩
    · intro hcon
      exact hcon (List.all_eq_true.mpr (fun x hx => (hntk x hx).1))
    · simp)]
  rw [lowerChar_map_id n (fun x hx => (hntk x hx).2)]

theorem headerLinesOk_cons {n v : Str} {t : Headers}
    (h : headerLinesOk ((n, v) :: t) = true) :
    nameOk n = true ∧ valueOk v = true ∧ headerLinesOk t = true := by
  rw [headerLinesOk] at h
  simp only [List.all_cons, Bool.and_eq_true, decide_eq_true_eq] at h
  exact ⟨h.1.1, h.1.2, by rw [headerLinesOk]; exact h.2⟩

theorem headerLinesOk_mem {hs : Headers} (hok : headerLinesOk hs = true)
    {p : Str × Str} (hp : p ∈ hs) :
    nameOk p.1 = true ∧ valueOk p.2 = true := by
  rw [headerLinesOk] at hok
  have := List.all_eq_true.mp hok p hp
  simpa using this

theorem parseHeaderLinesAux_inv (hs : Headers) :
    ∀ (fuel : Nat), hs.length < fuel → headerLinesOk hs = true →
    parseHeaderLinesAux fuel (renderHeaderLines hs ++ CRLF) = .ok hs := by
  induction hs with
  | nil =>
    intro fuel hf _
    match fuel, hf with
    | f + 1, _ =>
      show parseHeaderLinesAux (f + 1) (([] : Str) ++ CRLF) = .ok []
      have hread : readLine ['\r', '\n'] = (['\r', '\n'], []) := rfl
      rw [List.nil_append, parseHeaderLinesAux]
      simp only [CRLF]
      rw [hread]
      simp
  | cons p t ih =>
    obtain ⟨n, v⟩ := p
    intro fuel hf hok
    obtain ⟨hn, hv, ht⟩ := headerLinesOk_cons hok
    match fuel, hf with
    | f + 1, hf =>
      obtain ⟨hnne, hntk⟩ := nameOk_chars hn
      obtain ⟨hvnc, -⟩ := valueOk_chars hv
      cases hn2 : n with
      | nil => exact absurd hn2 hnne
      | cons n0 n1 =>
        rw [hn2] at hntk
        have hn0tk : isTokenChar n0 = true := (hntk n0 (by simp)).1
        have hcoreLF : ∀ y ∈ (n0 :: n1) ++ ':' :: ' ' :: (v ++ ['\r']),
            ¬y = '\n' := by
          intro y hy
          rcases List.mem_append.mp hy with hy | hy
          · exact (tokenChar_not_special (hntk y hy).1).2.1
          · rcases List.mem_cons.mp hy with hy | hy
            · rw [hy]; decide
            · rcases List.mem_cons.mp hy with hy | hy
              · rw [hy]; decide
              · rcases List.mem_append.mp hy with hy | hy
                · exact (hvnc y hy).2
                · simp at hy; rw [hy]; decide
        have hread := readLine_append
          ((n0 :: n1) ++ ':' :: ' ' :: (v ++ ['\r']))
          (renderHeaderLines t ++ CRLF) hcoreLF
        have hline : (((n0 :: n1) ++ ':' :: ' ' :: (v ++ ['\r'])) ++ ['\n'],
              renderHeaderLines t ++ CRLF) =
            (n0 :: (n1 ++ ':' :: ' ' :: (v ++ CRLF)),
              renderHeaderLines t ++ CRLF) := by
          simp [CRLF]
        rw [hline] at hread
        have hshape : renderHeaderLines ((n0 :: n1, v) :: t) ++ CRLF =
            ((n0 :: n1) ++ ':' :: ' ' :: (v ++ ['\r'])) ++
              '\n' :: (renderHeaderLines t ++ CRLF) := by
          simp [renderHeaderLines, renderHeaderLine, CRLF]
        rw [hshape, parseHeaderLinesAux]
        simp only [hread]
        have h0r : ¬n0 = '\r' := (tokenChar_not_special hn0tk).1
        have h0n : ¬n0 = '\n' := (tokenChar_not_special hn0tk).2.1
        have hblank : ¬(n0 :: (n1 ++ ':' :: ' ' :: (v ++ CRLF)) = CRLF ∨
            n0 :: (n1 ++ ':' :: ' ' :: (v ++ CRLF)) = ['\n']) := by
          intro hcon
          rcases hcon with hcon | hcon
          · rw [CRLF] at hcon
            injection hcon with h1 h2
            exact h0r h1
          · injection hcon with h1 h2
            exact h0n h1
        rw [if_neg hblank]
        have hph : parseHeaderLine (n0 :: (n1 ++ ':' :: ' ' :: (v ++ CRLF))) =
            .ok (n0 :: n1, v) := by
          have := parseHeaderLine_inv n v hn hv
          rw [hn2] at this
          simpa using this
        simp only [hph]
        rw [ih f (by simp at hf ⊢; omega) ht]
        rfl

theorem length_lt_renderHeaders (hs : Headers) :
    hs.length < (renderHeaderLines hs ++ CRLF).length := by
  induction hs with
  | nil => simp [renderHeaderLines, CRLF]
  | cons p t ih =>
    simp only [renderHeaderLines, List.map_cons, List.flatten_cons,
      List.length_append, List.length_cons] at ih ⊢
    simp [renderHeaderLine, CRLF] at ih ⊢
    omega

theorem parseReqHead_core (m u vs : Str) (v : HVersion) (hs : Headers)
    (hm : methodOk m = true) (hu : uriOk u = true)
    (hvs : parseVersion vs = .ok v) (hok : headerLinesOk hs = true) :
    parseReqHead (requestHead m u vs hs) =
      if 64 < hs.length then .error .invalid else .ok (m, u, v, hs) := by
  obtain ⟨hmne, hmtk⟩ := methodOk_chars hm
  obtain ⟨hune, hutk⟩ := uriOk_chars hu
  cases hm2 : m with
  | nil => exact absurd hm2 hmne
  | cons m0 m1 =>
    rw [hm2] at hmtk
    have hvsLF : ∀ x ∈ vs, ¬x = '\n' := by
      rcases parseVersion_elim vs v hvs with ⟨hveq, -⟩ | ⟨hveq, -⟩ <;>
        (rw [hveq]; decide)
    have hcoreLF : ∀ y ∈ (m0 :: m1) ++ ' ' :: (u ++ ' ' :: (vs ++ ['\r'])),
        ¬y = '\n' := by
      intro y hy
      rcases List.mem_append.mp hy with hy | hy
      · exact (tokenChar_not_special (hmtk y hy)).2.1
      · rcases List.mem_cons.mp hy with hy | hy
        · rw [hy]; decide
        · rcases List.mem_append.mp hy with hy | hy
          · exact (uriChar_not_special (hutk y hy)).2.1
          · rcases List.mem_cons.mp hy with hy | hy
            · rw [hy]; decide
            · rcases List.mem_append.mp hy with hy | hy
              · exact hvsLF y hy
              · simp at hy; rw [hy]; decide
    have hread := readLine_append
      ((m0 :: m1) ++ ' ' :: (u ++ ' ' :: (vs ++ ['\r'])))
      (renderHeaderLines hs ++ CRLF) hcoreLF
    have hline : (((m0 :: m1) ++ ' ' :: (u ++ ' ' :: (vs ++ ['\r']))) ++ ['\n'],
          renderHeaderLines hs ++ CRLF) =
        (m0 :: (m1 ++ ' ' :: (u ++ ' ' :: (vs ++ CRLF))),
          renderHeaderLines hs ++ CRLF) := by
      simp [CRLF]
    rw [hline] at hread
    have hshape : requestHead (m0 :: m1) u vs hs =
        ((m0 :: m1) ++ ' ' :: (u ++ ' ' :: (vs ++ ['\r']))) ++
          '\n' :: (renderHeaderLines hs ++ CRLF) := by
      simp [requestHead, CRLF]
    rw [hshape]
    simp only [parseReqHead]
    simp only [hread]
    have hreq : parseRequestLine
        (m0 :: (m1 ++ ' ' :: (u ++ ' ' :: (vs ++ CRLF)))) =
        .ok (m0 :: m1, u, v) := by
      have := parseRequestLine_inv (m0 :: m1) u vs v (hm2 ▸ hm) hu hvs
      simpa using this
    simp only [hreq]
    have hhl : parseHeaderLinesAux (renderHeaderLines hs ++ CRLF).length
        (renderHeaderLines hs ++ CRLF) = .ok hs :=
      parseHeaderLinesAux_inv hs _ (length_lt_renderHeaders hs) hok
    simp only [hhl]

theorem renderHeaderLines_linesStr (hs : Headers) :
    renderHeaderLines hs =
      linesStr (hs.map (fun p => p.1 ++ ':' :: ' ' :: p.2)) := by
  rw [renderHeaderLines, linesStr, List.map_map]
  congr 1
  exact List.map_congr_left (fun p _ => by simp [renderHeaderLine, CRLF])

theorem linesStr_cons (c : Str) (cs : List Str) :
    linesStr (c :: cs) = (c ++ CRLF) ++ linesStr cs := by
  simp [linesStr]

theorem linesStr_length (cores : List Str) :
    cores.length ≤ (linesStr cores).length := by
  induction cores with
  | nil => simp [linesStr]
  | cons c cs ih =>
    rw [linesStr_cons]
    simp only [List.length_append, List.length_cons, CRLF,
      List.length_nil]
    omega

theorem cores_length_lt (cores : List Str) (rest : Str) :
    cores.length < (linesStr cores ++ (CRLF ++ rest)).length := by
  have h := linesStr_length cores
  simp only [List.length_append, CRLF, List.length_cons, List.length_nil]
  omega

theorem headerBlock_linesStr (cores : List Str) (rest : Str)
    (hcores : ∀ c ∈ cores, coreOk c) (hne : ¬cores = []) :
    headerBlock (linesStr cores ++ (CRLF ++ rest)) =
      (linesStr cores ++ CRLF, rest) := by
  rw [headerBlock, headerBlockAux_lines cores _ [] rest hcores
    (cores_length_lt cores rest) (Or.inr ⟨rfl, hne⟩)]
  simp

theorem reqCores_ok (m u vs : Str) (v : HVersion) (hs : Headers)
    (hm : methodOk m = true) (hu : uriOk u = true)
    (hvs : parseVersion vs = .ok v) (hok : headerLinesOk hs = true) :
    ∀ c ∈ (m ++ ' ' :: (u ++ ' ' :: vs)) ::
        hs.map (fun p => p.1 ++ ':' :: ' ' :: p.2), coreOk c := by
  obtain ⟨hmne, hmtk⟩ := methodOk_chars hm
  obtain ⟨hune, hutk⟩ := uriOk_chars hu
  have hvsRN : ∀ x ∈ vs, ¬x = '\r' ∧ ¬x = '\n' := by
    rcases parseVersion_elim vs v hvs with ⟨hveq, -⟩ | ⟨hveq, -⟩ <;>
      (rw [hveq]; decide)
  intro c hc
  rcases List.mem_cons.mp hc with hc | hc
  · subst hc
    refine ⟨by simp, ?_⟩
    intro x hx
    rcases List.mem_append.mp hx with hx | hx
    · have := tokenChar_not_special (hmtk x hx)
      exact ⟨this.1, this.2.1⟩
    · rcases List.mem_cons.mp hx with hx | hx
      · rw [hx]; exact ⟨by decide, by decide⟩
      · rcases List.mem_append.mp hx with hx | hx
        · have := uriChar_not_special (hutk x hx)
          exact ⟨this.1, this.2.1⟩
        · rcases List.mem_cons.mp hx with hx | hx
          · rw [hx]; exact ⟨by decide, by decide⟩
          · exact hvsRN x hx
  · obtain ⟨p, hp, rfl⟩ := List.mem_map.mp hc
    obtain ⟨hnok, hvok⟩ := headerLinesOk_mem hok hp
    obtain ⟨-, hntk⟩ := nameOk_chars hnok
    obtain ⟨hvnc, -⟩ := valueOk_chars hvok
    refine ⟨by simp, ?_⟩
    intro x hx
    rcases List.mem_append.mp hx with hx | hx
    · have := tokenChar_not_special (hntk x hx).1
      exact ⟨this.1, this.2.1⟩
    · rcases List.mem_cons.mp hx with hx | hx
      · rw [hx]; exact ⟨by decide, by decide⟩
      · rcases List.mem_cons.mp hx with hx | hx
        · rw [hx]; exact ⟨by decide, by decide⟩
        · exact hvnc x hx

theorem requestHead_eq_lines (m u vs : Str) (hs : Headers) :
    requestHead m u vs hs =
      linesStr ((m ++ ' ' :: (u ++ ' ' :: vs)) ::
        hs.map (fun p => p.1 ++ ':' :: ' ' :: p.2)) ++ CRLF := by
  rw [linesStr_cons, ← renderHeaderLines_linesStr]
  simp [requestHead, CRLF]

theorem parse_request_split (m u vs : Str) (v : HVersion) (hs : Headers)
    (rest : Str) (hm : methodOk m = true) (hu : uriOk u = true)
    (hvs : parseVersion vs = .ok v) (hok : headerLinesOk hs = true) :
    parse_request (requestHead m u vs hs ++ rest) =
      if 64 < hs.length then .error .invalid
      else
        match bodyFromHeadersReq hs rest with
        | .error e => .error e
        | .ok b => .ok ⟨m, u, v, hs, b⟩ := by
  have hshape : requestHead m u vs hs ++ rest =
      linesStr ((m ++ ' ' :: (u ++ ' ' :: vs)) ::
        hs.map (fun p => p.1 ++ ':' :: ' ' :: p.2)) ++ (CRLF ++ rest) := by
    rw [requestHead_eq_lines]
    simp
  have hblock : headerBlock (requestHead m u vs hs ++ rest) =
      (requestHead m u vs hs, rest) := by
    rw [hshape, headerBlock_linesStr _ _
      (reqCores_ok m u vs v hs hm hu hvs hok) (by simp),
      ← requestHead_eq_lines]
  have hbufne : ¬requestHead m u vs hs = [] := by
    simp [requestHead, CRLF]
  simp only [parse_request]
  simp only [hblock]
  rw [if_neg hbufne]
  rw [parseReqHead_core m u vs v hs hm hu hvs hok]
  by_cases h64 : 64 < hs.length
  · rw [if_pos h64, if_pos h64]
  · rw [if_neg h64, if_neg h64]

theorem showDec_three_digits (s : Nat) (h1 : 100 ≤ s) (h2 : s ≤ 999) :
    showDec s = [digitChar (s / 100), digitChar (s / 10 % 10),
      digitChar (s % 10)] := by
  have h0 : ¬s = 0 := by omega
  have hb : (1:Nat) < 10 := by omega
  have hs10 : 0 < s / 10 := by omega
  have hs100 : 0 < s / 10 / 10 := by omega
  have hz : s / 10 / 10 / 10 = 0 := by omega
  have e1 : s / 10 / 10 % 10 = s / 100 := by omega
  rw [showDec, showBase, if_neg h0, natDigits_eq_digits 10 hb,
    Nat.digits_def' hb (by omega : 0 < s), Nat.digits_def' hb hs10,
    Nat.digits_def' hb hs100, hz, Nat.digits_zero]
  simp [e1]

theorem canonicalReason_chars (s : Nat) :
    ∀ x ∈ canonicalReason s, ¬x = '\r' ∧ ¬x = '\n' := by
  intro x hx
  rw [canonicalReason] at hx
  split_ifs at hx
  all_goals revert x
  all_goals decide

theorem showDec_chars (s : Nat) :
    ∀ x ∈ showDec s, ¬x = '\r' ∧ ¬x = '\n' := by
  intro x hx
  rw [showDec] at hx
  have h := hexDigit_not_delim
    (mem_showBase_isDigit (by omega) (by omega) hx)
  exact ⟨h.1, h.2.1⟩

theorem versionDebug_chars (v : HVersion) :
    ∀ x ∈ versionDebug v, ¬x = '\r' ∧ ¬x = '\n' ∧ ¬x = ' ' := by
  cases v <;> decide

theorem parseStatusLine_inv (v : HVersion) (s : Nat) (reason : Str)
    (hv : ¬v = .http09) (h1 : 100 ≤ s) (h2 : s ≤ 999) :
    parseStatusLine (versionDebug v ++ ' ' ::
      (showDec s ++ ' ' :: (reason ++ CRLF))) = .ok (v, s) := by
  have hpv : parseVersion (versionDebug v) = .ok v := by
    cases v with
    | http09 => exact absurd rfl hv
    | http10 => decide
    | http11 => decide
  have htw : (versionDebug v ++ ' ' ::
      (showDec s ++ ' ' :: (reason ++ CRLF))).takeWhile
      (fun c => ¬c = ' ') = versionDebug v := by
    apply takeWhile_append_cons
    · intro x hx
      simp [(versionDebug_chars v x hx).2.2]
    · simp
  have hdrop := List.drop_left (versionDebug v)
    (' ' :: (showDec s ++ ' ' :: (reason ++ CRLF)))
  have hdig := showDec_three_digits s h1 h2
  have hd1 : decDigitVal (digitChar (s / 100)) = some (s / 100) :=
    decDigitVal_digitChar (by omega)
  have hd2 : decDigitVal (digitChar (s / 10 % 10)) = some (s / 10 % 10) :=
    decDigitVal_digitChar (by omega)
  have hd3 : decDigitVal (digitChar (s % 10)) = some (s % 10) :=
    decDigitVal_digitChar (by omega)
  rw [parseStatusLine]
  simp only [htw, hpv, hdrop]
  rw [hdig]
  simp only [List.cons_append, List.nil_append]
  simp only [hd1, hd2, hd3]
  have hval : s / 100 * 100 + s / 10 % 10 * 10 + s % 10 = s := by omega
  simp [hval]

theorem parseResHead_core (r : Response) (hs2 : Headers)
    (hv : ¬r.version = .http09) (h1 : 100 ≤ r.status) (h2 : r.status ≤ 999)
    (hok : headerLinesOk hs2 = true) :
    parseResHead (responseHead r hs2) =
      if 64 < hs2.length then .error .invalid
      else .ok (r.version, r.status, hs2) := by
  have hcoreLF : ∀ y ∈ versionDebug r.version ++ ' ' ::
      (showDec r.status ++ ' ' :: (canonicalReason r.status ++ ['\r'])),
      ¬y = '\n' := by
    intro y hy
    rcases List.mem_append.mp hy with hy | hy
    · exact (versionDebug_chars r.version y hy).2.1
    · rcases List.mem_cons.mp hy with hy | hy
      · rw [hy]; decide
      · rcases List.mem_append.mp hy with hy | hy
        · exact (showDec_chars r.status y hy).2
        · rcases List.mem_cons.mp hy with hy | hy
          · rw [hy]; decide
          · rcases List.mem_append.mp hy with hy | hy
            · exact (canonicalReason_chars r.status y hy).2
            · simp at hy; rw [hy]; decide
  have hread := readLine_append
    (versionDebug r.version ++ ' ' ::
      (showDec r.status ++ ' ' :: (canonicalReason r.status ++ ['\r'])))
    (renderHeaderLines hs2 ++ CRLF) hcoreLF
  have hline : ((versionDebug r.version ++ ' ' ::
        (showDec r.status ++ ' ' ::
          (canonicalReason r.status ++ ['\r']))) ++ ['\n'],
        renderHeaderLines hs2 ++ CRLF) =
      (versionDebug r.version ++ ' ' ::
        (showDec r.status ++ ' ' :: (canonicalReason r.status ++ CRLF)),
        renderHeaderLines hs2 ++ CRLF) := by
    simp [CRLF]
  rw [hline] at hread
  have hshape : responseHead r hs2 =
      (versionDebug r.version ++ ' ' ::
        (showDec r.status ++ ' ' :: (canonicalReason r.status ++ ['\r']))) ++
        '\n' :: (renderHeaderLines hs2 ++ CRLF) := by
    simp [responseHead, CRLF]
  rw [hshape]
  simp only [parseResHead]
  simp only [hread]
  simp only [parseStatusLine_inv r.version r.status (canonicalReason r.status)
    hv h1 h2]
  rw [if_neg (show ¬r.status < 100 by omega)]
  have hhl : parseHeaderLinesAux (renderHeaderLines hs2 ++ CRLF).length
      (renderHeaderLines hs2 ++ CRLF) = .ok hs2 :=
    parseHeaderLinesAux_inv hs2 _ (length_lt_renderHeaders hs2) hok
  simp only [hhl]

theorem resCores_ok (r : Response) (hs2 : Headers)
    (hok : headerLinesOk hs2 = true) :
    ∀ c ∈ (versionDebug r.version ++ ' ' ::
        (showDec r.status ++ ' ' :: canonicalReason r.status)) ::
        hs2.map (fun p => p.1 ++ ':' :: ' ' :: p.2), coreOk c := by
  intro c hc
  rcases List.mem_cons.mp hc with hc | hc
  · subst hc
    refine ⟨by simp, ?_⟩
    intro x hx
    rcases List.mem_append.mp hx with hx | hx
    · have := versionDebug_chars r.version x hx
      exact ⟨this.1, this.2.1⟩
    · rcases List.mem_cons.mp hx with hx | hx
      · rw [hx]; exact ⟨by decide, by decide⟩
      · rcases List.mem_append.mp hx with hx | hx
        · exact showDec_chars r.status x hx
        · rcases List.mem_cons.mp hx with hx | hx
          · rw [hx]; exact ⟨by decide, by decide⟩
          · exact canonicalReason_chars r.status x hx
  · obtain ⟨p, hp, rfl⟩ := List.mem_map.mp hc
    obtain ⟨hnok, hvok⟩ := headerLinesOk_mem hok hp
    obtain ⟨-, hntk⟩ := nameOk_chars hnok
    obtain ⟨hvnc, -⟩ := valueOk_chars hvok
    refine ⟨by simp, ?_⟩
    intro x hx
    rcases List.mem_append.mp hx with hx | hx
    · have := tokenChar_not_special (hntk x hx).1
      exact ⟨this.1, this.2.1⟩
    · rcases List.mem_cons.mp hx with hx | hx
      · rw [hx]; exact ⟨by decide, by decide⟩
      · rcases List.mem_cons.mp hx with hx | hx
        · rw [hx]; exact ⟨by decide, by decide⟩
        · exact hvnc x hx

theorem responseHead_eq_lines (r : Response) (hs2 : Headers) :
    responseHead r hs2 =
      linesStr ((versionDebug r.version ++ ' ' ::
        (showDec r.status ++ ' ' :: canonicalReason r.status)) ::
        hs2.map (fun p => p.1 ++ ':' :: ' ' :: p.2)) ++ CRLF := by
  rw [linesStr_cons, ← renderHeaderLines_linesStr]
  simp [responseHead, CRLF]

theorem parse_response_split (r : Response) (hs2 : Headers) (rest : Str)
    (hv : ¬r.version = .http09) (h1 : 100 ≤ r.status)
    (h2 : r.status ≤ 999) (hok : headerLinesOk hs2 = true) :
    parse_response (responseHead r hs2 ++ rest) =
      if 64 < hs2.length then .error .invalid
      else
        match bodyFromHeadersRes hs2 rest with
        | .error e => .error e
        | .ok b => .ok ⟨r.version, r.status, hs2, false, b⟩ := by
  have hshape : responseHead r hs2 ++ rest =
      linesStr ((versionDebug r.version ++ ' ' ::
        (showDec r.status ++ ' ' :: canonicalReason r.status)) ::
        hs2.map (fun p => p.1 ++ ':' :: ' ' :: p.2)) ++ (CRLF ++ rest) := by
    rw [responseHead_eq_lines]
    simp
  have hblock : headerBlock (responseHead r hs2 ++ rest) =
      (responseHead r hs2, rest) := by
    rw [hshape, headerBlock_linesStr _ _
      (resCores_ok r hs2 hok) (by simp),
      ← responseHead_eq_lines]
  have hbufne : ¬responseHead r hs2 = [] := by
    simp [responseHead, CRLF]
  simp only [parse_response]
  simp only [hblock]
  rw [if_neg hbufne]
  rw [parseResHead_core r hs2 hv h1 h2 hok]
  by_cases h64 : 64 < hs2.length
  · rw [if_pos h64, if_pos h64]
  · rw [if_neg h64, if_neg h64]

/-- C3, confirmed.  On a parseable request head, `parse_request` assigns
the body exactly as claimed: a present `Transfer-Encoding` equal to
`chunked` yields the chunked-decoded body; any other present value fails
with `InvalidTransferEncoding`; otherwise `Content-Length: n` yields an
eager buffered body of exactly `n` bytes when `n < 1024` (the eager read
failing when fewer bytes are available) and a reader body with declared
length `n` when `1024 ≤ n`; otherwise the body is empty. -/
theorem c3_request_body_assignment (m u vs : Str) (v : HVersion)
    (hs : Headers) (rest : Str) (hm : methodOk m = true)
    (hu : uriOk u = true) (hvs : parseVersion vs = .ok v)
    (hok : headerLinesOk hs = true) (h64 : hs.length ≤ 64) :
    parse_request (requestHead m u vs hs ++ rest) =
      match getHeaderValue hs transferEncodingName with
      | some tv =>
        if tv = "chunked".data then
          .ok ⟨m, u, v, hs,
            .iter ((decodeChunked rest).map (fun d => .ok (.data d)))⟩
        else .error .invalidTransferEncoding
      | none =>
        match tryGetContentLength hs with
        | .error e => .error e
        | .ok (some n) =>
          if n < 1024 then
            if rest.length < n then
              .error (.io ⟨"failed to fill whole buffer".data⟩)
            else .ok ⟨m, u, v, hs, .buffered (rest.take n)⟩
          else .ok ⟨m, u, v, hs, .reader rest (some n)⟩
        | .ok none => .ok ⟨m, u, v, hs, .empty⟩ := by
  rw [parse_request_split m u vs v hs rest hm hu hvs hok,
    if_neg (show ¬64 < hs.length by omega)]
  cases hte : getHeaderValue hs transferEncodingName with
  | none =>
    simp only [bodyFromHeadersReq, tryGetTransferEncoding, hte]
    cases hcl : tryGetContentLength hs with
    | error e => simp
    | ok o =>
      cases o with
      | none => simp
      | some n =>
        by_cases hn : n < 1024
        · by_cases hr : rest.length < n <;> simp [hn, hr]
        · simp [hn]
  | some tv =>
    by_cases htv : tv = "chunked".data <;>
      simp [bodyFromHeadersReq, tryGetTransferEncoding, hte, htv]

theorem c3_request_body_assignment_witness :
    methodOk "GET".data = true ∧
    parse_request (requestHead "GET".data "/".data "HTTP/1.1".data
        [("content-length".data, ['3'])] ++ "abcde".data) =
      .ok ⟨"GET".data, "/".data, .http11,
        [("content-length".data, ['3'])], .buffered ['a', 'b', 'c']⟩ :=
  ⟨by decide,
   (c3_request_body_assignment "GET".data "/".data "HTTP/1.1".data .http11
      [("content-length".data, ['3'])] "abcde".data (by decide) (by decide)
      (by decide) (by decide) (by decide)).trans (by decide)⟩

/-- C9, confirmed.  A request or response head carrying more than 64
header fields makes `parse_request` / `parse_response` fail with
`ParseError::Invalid` (httparse's fixed 64-slot header array overflows
as `TooManyHeaders`); headers are never silently truncated. -/
theorem c9_too_many_headers :
    (∀ (m u vs : Str) (v : HVersion) (hs : Headers) (rest : Str),
      methodOk m = true → uriOk u = true → parseVersion vs = .ok v →
      headerLinesOk hs = true → 64 < hs.length →
      parse_request (requestHead m u vs hs ++ rest) = .error .invalid) ∧
    (∀ (r : Response) (hs2 : Headers) (rest : Str),
      ¬r.version = .http09 → 100 ≤ r.status → r.status ≤ 999 →
      headerLinesOk hs2 = true → 64 < hs2.length →
      parse_response (responseHead r hs2 ++ rest) = .error .invalid) := by
  constructor
  · intro m u vs v hs rest hm hu hvs hok h65
    rw [parse_request_split m u vs v hs rest hm hu hvs hok, if_pos h65]
  · intro r hs2 rest hv h1 h2 hok h65
    rw [parse_response_split r hs2 rest hv h1 h2 hok, if_pos h65]

theorem c9_too_many_headers_witness :
    64 < (List.replicate 65 ((['a'] : Str), (['b'] : Str))).length ∧
    parse_request (requestHead "GET".data "/".data "HTTP/1.1".data
        (List.replicate 65 (['a'], ['b'])) ++ []) = .error .invalid ∧
    parse_response (responseHead ⟨.http11, 200, [], false, .empty⟩
        (List.replicate 65 (['a'], ['b'])) ++ []) = .error .invalid :=
  ⟨by decide,
   c9_too_many_headers.1 "GET".data "/".data "HTTP/1.1".data .http11
     (List.replicate 65 (['a'], ['b'])) [] (by decide) (by decide)
     (by decide) (by decide) (by decide),
   c9_too_many_headers.2 ⟨.http11, 200, [], false, .empty⟩
     (List.replicate 65 (['a'], ['b'])) [] (by decide) (by decide)
     (by decide) (by decide) (by decide)⟩

/- ### Round-trip support: header map preservation -/

theorem valueOk_of_chars {v : Str}
    (h : ∀ x ∈ v, ¬x = '\r' ∧ ¬x = '\n' ∧ isHWS x = false) :
    valueOk v = true := by
  rw [valueOk.eq_def]
  simp only [Bool.and_eq_true]
  refine ⟨⟨?_, ?_⟩, ?_⟩
  · apply List.all_eq_true.mpr
    intro x hx
    simp [(h x hx).1, (h x hx).2.1]
  · cases hv : v with
    | nil => simp
    | cons c cs =>
      have := (h c (by rw [hv]; simp)).2.2
      simp [this]
  · cases hr : v.reverse with
    | nil => simp
    | cons c cs =>
      have hc : c ∈ v := List.mem_reverse.mp (by rw [hr]; simp)
      have := (h c hc).2.2
      simp [this]

theorem valueOk_showDec (n : Nat) : valueOk (showDec n) = true := by
  apply valueOk_of_chars
  intro x hx
  rw [showDec] at hx
  have h := hexDigit_not_delim (mem_showBase_isDigit (by omega) (by omega) hx)
  refine ⟨h.1, h.2.1, ?_⟩
  rw [isHWS]
  simp [h.2.2.1, h.2.2.2.2.2]

theorem headerLinesOk_filter (hs : Headers) (p : Str × Str → Bool)
    (h : headerLinesOk hs = true) : headerLinesOk (hs.filter p) = true := by
  rw [headerLinesOk]
  apply List.all_eq_true.mpr
  intro x hx
  have hx2 : x ∈ hs := List.mem_of_mem_filter hx
  have := headerLinesOk_mem h hx2
  simp [this.1, this.2]

theorem headerLinesOk_insert (hs : Headers) (n v : Str)
    (hok : headerLinesOk hs = true) (hn : nameOk n = true)
    (hv : valueOk v = true) :
    headerLinesOk (insertHeader hs n v) = true := by
  induction hs with
  | nil =>
    show headerLinesOk [(n, v)] = true
    simp [headerLinesOk, hn, hv]
  | cons p t ih =>
    obtain ⟨a, b⟩ := p
    obtain ⟨hna, hvb, ht⟩ := headerLinesOk_cons hok
    by_cases hp : a = n
    · rw [insertHeader, if_pos hp, headerLinesOk]
      simp only [List.all_cons, Bool.and_eq_true, decide_eq_true_eq]
      refine ⟨⟨hn, hv⟩, ?_⟩
      have := headerLinesOk_filter t (fun p => !(p.1 = n)) ht
      rw [headerLinesOk] at this
      simpa using this
    · rw [insertHeader, if_neg hp, headerLinesOk]
      simp only [List.all_cons, Bool.and_eq_true, decide_eq_true_eq]
      exact ⟨⟨hna, hvb⟩, by have := ih ht; rw [headerLinesOk] at this; exact this⟩

theorem insertHeader_length (hs : Headers) (n v : Str) :
    (insertHeader hs n v).length ≤ hs.length + 1 := by
  induction hs with
  | nil => simp [insertHeader]
  | cons p t ih =>
    by_cases hp : p.1 = n
    · rw [insertHeader, if_pos hp]
      have := List.length_filter_le (fun p => !(p.1 = n)) t
      simp only [List.length_cons]
      have h2 := List.length_filter_le
        (fun (p : Str × Str) => decide ¬(p.1 = n)) t
      omega
    · rw [insertHeader, if_neg hp]
      simp only [List.length_cons]
      omega

theorem getContentLength_some_tryGet (hs : Headers) (n : Nat)
    (h : getContentLength hs = some n) :
    tryGetContentLength hs = .ok (some n) := by
  rw [getContentLength] at h
  cases hg : getHeaderValue hs contentLengthName with
  | none => rw [hg] at h; cases h
  | some v =>
    rw [hg] at h
    have h2 : parseDecNat v = some n := h
    simp [tryGetContentLength, hg, h2]

theorem getContentLength_insert_showDec (hs : Headers) (m : Nat) :
    getContentLength (insertHeader hs contentLengthName (showDec m)) =
      some m := by
  rw [getContentLength, getHeaderValue_insertHeader_self]
  show parseDecNat (showDec m) = some m
  exact parseDecNat_showDec m

theorem hasChunkedTE_some {hs : Headers} (h : hasChunkedTE hs = true) :
    getHeaderValue hs transferEncodingName = some "chunked".data := by
  rw [hasChunkedTE.eq_def] at h
  cases hg : getHeaderValue hs transferEncodingName with
  | none => rw [hg] at h; cases h
  | some v =>
    rw [hg] at h
    simp only [decide_eq_true_eq] at h
    rw [h]

theorem hasChunkedTE_of_some {hs : Headers}
    (h : getHeaderValue hs transferEncodingName = some "chunked".data) :
    hasChunkedTE hs = true := by
  rw [hasChunkedTE.eq_def, h]
  simp

theorem requestVersionStr_parse (v : HVersion) (s : Str)
    (h : requestVersionStr v = .ok s) :
    parseVersion s = .ok v := by
  cases v with
  | http09 => cases h
  | http10 =>
    have : s = "HTTP/1.0".data := (Except.ok.inj h).symm
    rw [this]
    decide
  | http11 =>
    have : s = "HTTP/1.1".data := (Except.ok.inj h).symm
    rw [this]
    decide

theorem versionDebug_parse (v : HVersion) (hv : ¬v = .http09) :
    parseVersion (versionDebug v) = .ok v := by
  cases v with
  | http09 => exact absurd rfl hv
  | http10 => decide
  | http11 => decide

/-- Declared-length consistency: the reader variant's declared length equals
the bytes its reader holds (the claims' round trip needs the declaration to
be exact, not merely an upper bound). -/
def bodyExact : Body → Prop
| .reader data (some n) => data.length = n
| _ => True

theorem len_eq_payload_length (b : Body) (m : Nat)
    (hcs : b.chunkSafe = true) (hex : bodyExact b) (h : b.len = some m) :
    m = b.payload.length := by
  match b with
  | .empty =>
    have : m = 0 := by
      rw [Body.len] at h
      exact (Option.some.inj h).symm
    simp [this, Body.payload]
  | .buffered bytes =>
    rw [Body.len] at h
    rw [Body.payload, ← Option.some.inj h]
  | .iter chunks => cases h
  | .reader data (some n) =>
    rw [Body.len] at h
    rw [bodyExact] at hex
    rw [Body.payload, ← Option.some.inj h, List.take_of_length_le (by omega)]
    omega

/- ### Round-trip support: chunk streams -/

/-- The `Data` payloads among chunk items, in order (trailer and error items
skipped), as the chunk encoder emits them. -/
def datasOf : List (Except IoErr Chunk) → List Str
| [] => []
| .ok (.data d) :: r => d :: datasOf r
| .ok (.trailers _) :: r => datasOf r
| .error _ :: r => datasOf r

theorem chunkDataConcat_eq_flatten_datasOf
    (xs : List (Except IoErr Chunk)) :
    chunkDataConcat xs = (datasOf xs).flatten := by
  induction xs with
  | nil => rfl
  | cons x r ih =>
    match x with
    | .ok (.data d) => simp [chunkDataConcat, datasOf, ih]
    | .ok (.trailers t) => simp [chunkDataConcat, datasOf, ih]
    | .error e => simp [chunkDataConcat, datasOf, ih]

theorem into_chunks_isOk (b : Body) :
    ∀ c ∈ b.into_chunks, c.isOk = true := by
  match b with
  | .empty => intro c hc; cases hc
  | .buffered bytes =>
    intro c hc
    rw [Body.into_chunks] at hc
    simp at hc
    rw [hc]
    rfl
  | .iter chunks =>
    intro c hc
    rw [Body.into_chunks] at hc
    exact List.mem_takeWhile_imp hc
  | .reader data len =>
    intro c hc
    rw [Body.into_chunks] at hc
    obtain ⟨d, -, rfl⟩ := List.mem_map.mp hc
    rfl

theorem encodeChunkedAux_ok (xs : List (Except IoErr Chunk))
    (h : ∀ c ∈ xs, c.isOk = true) :
    ∀ tacc : Headers, ∃ ts, encodeChunkedAux xs tacc =
      .ok (((datasOf xs).map encodeChunkData).flatten, ts) := by
  induction xs with
  | nil => intro tacc; exact ⟨tacc, by simp [encodeChunkedAux, datasOf]⟩
  | cons x r ih =>
    intro tacc
    match x with
    | .ok (.data d) =>
      obtain ⟨ts, hts⟩ := ih (fun c hc => h c (by simp [hc])) tacc
      refine ⟨ts, ?_⟩
      rw [encodeChunkedAux, hts]
      simp [datasOf, Except.map]
    | .ok (.trailers t) =>
      obtain ⟨ts, hts⟩ := ih (fun c hc => h c (by simp [hc])) (tacc ++ t)
      refine ⟨ts, ?_⟩
      rw [encodeChunkedAux, hts]
      simp [datasOf]
    | .error e =>
      have := h (.error e) (by simp)
      cases this

theorem encodeChunkedBody_ok (xs : List (Except IoErr Chunk))
    (h : ∀ c ∈ xs, c.isOk = true) :
    ∃ ts, encodeChunkedBody xs =
      .ok (((datasOf xs).map encodeChunkData).flatten ++
        '0' :: '\r' :: '\n' :: (renderHeaderLines ts ++ CRLF)) := by
  obtain ⟨ts, hts⟩ := encodeChunkedAux_ok xs h []
  refine ⟨ts, ?_⟩
  rw [encodeChunkedBody, hts]
  simp [CRLF, digitChar, Except.map]

theorem parseChunkSize_enc (n : Nat) :
    parseChunkSize (showHex n ++ CRLF) = some n := by
  have htw : (showHex n ++ CRLF).takeWhile
      (fun c => (hexDigitVal c).isSome) = showHex n := by
    show (showHex n ++ '\r' :: ['\n']).takeWhile _ = showHex n
    apply takeWhile_append_cons
    · intro x hx
      rw [showHex] at hx
      simpa using mem_showBase_isDigit (by omega) (by omega) hx
    · decide
  have hdr : (showHex n ++ CRLF).drop (showHex n).length = CRLF :=
    List.drop_left _ _
  rw [parseChunkSize]
  simp only [htw, hdr, parseHexNat_showHex]
  simp [CRLF]

theorem showBase_ne_nil (b n : Nat) (hb : 1 < b) : ¬showBase b n = [] := by
  rw [showBase]
  by_cases hn : n = 0
  · simp [hn]
  · rw [if_neg hn, natDigits_eq_digits b hb]
    simp [Nat.digits_ne_nil_iff_ne_zero.mpr hn]

theorem decodeChunkedAux_enc (ds : List Str) :
    ∀ (fuel : Nat) (tail : Str), ds.length < fuel →
    (∀ d ∈ ds, ¬d = []) →
    decodeChunkedAux fuel
      ((ds.map encodeChunkData).flatten ++ '0' :: '\r' :: '\n' :: tail) =
      ds := by
  induction ds with
  | nil =>
    intro fuel tail hf hne
    match fuel, hf with
    | f + 1, _ =>
      show decodeChunkedAux (f + 1)
        (([] : Str) ++ '0' :: '\r' :: '\n' :: tail) = []
      rw [List.nil_append, decodeChunkedAux]
      have hread : readLine ('0' :: '\r' :: '\n' :: tail) =
          (['0', '\r', '\n'], tail) := by
        simp [readLine]
      simp only [hread]
      have hpc : parseChunkSize ['0', '\r', '\n'] = some 0 := by decide
      simp [hpc]
  | cons d ds ih =>
    intro fuel tail hf hne
    match fuel, hf with
    | f + 1, hf =>
      have hdne : ¬d = [] := hne d (by simp)
      obtain ⟨k, hk⟩ : ∃ k, d.length = k + 1 := by
        cases d with
        | nil => exact absurd rfl hdne
        | cons a b => exact ⟨b.length, rfl⟩
      obtain ⟨c0, cs0, hsh⟩ : ∃ c0 cs0, showHex d.length = c0 :: cs0 := by
        cases hx : showHex d.length with
        | nil => exact absurd hx (showBase_ne_nil 16 d.length (by omega))
        | cons c0 cs0 => exact ⟨c0, cs0, rfl⟩
      have hnoLF : ∀ x ∈ showHex d.length ++ ['\r'], ¬x = '\n' := by
        intro x hx
        rcases List.mem_append.mp hx with hx | hx
        · rw [showHex] at hx
          exact (hexDigit_not_delim
            (mem_showBase_isDigit (by omega) (by omega) hx)).2.1
        · simp at hx; rw [hx]; decide
      have hshape : ((d :: ds).map encodeChunkData).flatten ++
          '0' :: '\r' :: '\n' :: tail =
          (showHex d.length ++ ['\r']) ++ '\n' ::
            (d ++ '\r' :: '\n' ::
              ((ds.map encodeChunkData).flatten ++
                '0' :: '\r' :: '\n' :: tail)) := by
        simp [encodeChunkData, CRLF]
      have hread := readLine_append (showHex d.length ++ ['\r'])
        (d ++ '\r' :: '\n' ::
          ((ds.map encodeChunkData).flatten ++ '0' :: '\r' :: '\n' :: tail))
        hnoLF
      have hline : ((showHex d.length ++ ['\r']) ++ ['\n'],
            d ++ '\r' :: '\n' ::
              ((ds.map encodeChunkData).flatten ++
                '0' :: '\r' :: '\n' :: tail)) =
          (c0 :: (cs0 ++ CRLF),
            d ++ '\r' :: '\n' ::
              ((ds.map encodeChunkData).flatten ++
                '0' :: '\r' :: '\n' :: tail)) := by
        rw [hsh]
        simp [CRLF]
      rw [hline] at hread
      rw [hshape, decodeChunkedAux]
      simp only [hread]
      have hpc : parseChunkSize (c0 :: (cs0 ++ CRLF)) = some (k + 1) := by
        have := parseChunkSize_enc d.length
        rw [hsh] at this
        rw [← hk]
        simpa using this
      simp only [hpc]
      have hrlen : ¬(d ++ '\r' :: '\n' ::
          ((ds.map encodeChunkData).flatten ++
            '0' :: '\r' :: '\n' :: tail)).length < k + 1 := by
        simp only [List.length_append, List.length_cons]
        omega
      rw [if_neg hrlen]
      have htake : (d ++ '\r' :: '\n' ::
          ((ds.map encodeChunkData).flatten ++
            '0' :: '\r' :: '\n' :: tail)).take (k + 1) = d := by
        rw [← hk]
        exact List.take_left _ _
      have hdrop : (d ++ '\r' :: '\n' ::
          ((ds.map encodeChunkData).flatten ++
            '0' :: '\r' :: '\n' :: tail)).drop (k + 1) =
          '\r' :: '\n' ::
            ((ds.map encodeChunkData).flatten ++
              '0' :: '\r' :: '\n' :: tail) := by
        rw [← hk]
        exact List.drop_left _ _
      rw [htake, hdrop]
      have hread2 : readLine ('\r' :: '\n' ::
          ((ds.map encodeChunkData).flatten ++
            '0' :: '\r' :: '\n' :: tail)) =
          (['\r', '\n'],
            (ds.map encodeChunkData).flatten ++
              '0' :: '\r' :: '\n' :: tail) := by
        simp [readLine]
      rw [hread2]
      rw [ih f tail (by simp at hf ⊢; omega)
        (fun x hx => hne x (by simp [hx]))]

theorem encodeChunkData_length_pos (d : Str) :
    1 ≤ (encodeChunkData d).length := by
  rw [encodeChunkData]
  simp [CRLF]
  omega

theorem enc_flatten_length (ds : List Str) :
    ds.length ≤ ((ds.map encodeChunkData).flatten).length := by
  induction ds with
  | nil => simp
  | cons d r ih =>
    simp only [List.map_cons, List.flatten_cons, List.length_append,
      List.length_cons]
    have := encodeChunkData_length_pos d
    omega

theorem decodeChunked_encode (ds : List Str) (tail : Str)
    (hne : ∀ d ∈ ds, ¬d = []) :
    decodeChunked
      ((ds.map encodeChunkData).flatten ++ '0' :: '\r' :: '\n' :: tail) =
      ds := by
  rw [decodeChunked]
  apply decodeChunkedAux_enc ds _ tail _ hne
  have := enc_flatten_length ds
  simp only [List.length_append, List.length_cons]
  omega

theorem into_bytes_iter_datas (ds : List Str) :
    (Body.iter (ds.map (fun d => .ok (.data d)))).into_bytes =
      .ok ds.flatten := by
  have hcs : (Body.iter (ds.map (fun d => .ok (.data d)))).chunkSafe = true := by
    rw [Body.chunkSafe]
    apply List.all_eq_true.mpr
    intro c hc
    obtain ⟨d, -, rfl⟩ := List.mem_map.mp hc
    rfl
  rw [into_bytes_chunkSafe _ hcs, Body.payload, chunkDataConcat_mapData]

/- ### Round-trip support: framing case analysis -/

theorem requestFraming_cases (m : Str) (ver : HVersion) (hs : Headers)
    (bl : Option Nat) (enc : Encoding) (hs1 : Headers)
    (h : requestFraming m ver hs bl = .ok (enc, hs1)) :
    (enc = .chunked ∧ hs1 = hs ∧ hasChunkedTE hs = true ∧
      ver = .http11) ∨
    (∃ n, enc = .fixedLength n ∧ hs1 = hs ∧
      getContentLength hs = some n ∧ (bl = none ∨ bl = some n) ∧
      ¬(hasChunkedTE hs = true ∧ ver = .http11)) ∨
    (∃ n, enc = .fixedLength n ∧
      hs1 = insertHeader hs contentLengthName (showDec n) ∧
      getContentLength hs = none ∧ bl = some n ∧
      ¬(hasChunkedTE hs = true ∧ ver = .http11)) ∨
    (enc = .chunked ∧
      hs1 = insertHeader hs transferEncodingName "chunked".data ∧
      getContentLength hs = none ∧ bl = none ∧ ver = .http11 ∧
      ¬hasChunkedTE hs = true) := by
  rw [requestFraming.eq_def] at h
  split_ifs at h with h1 h2 h3
  · cases h
    exact Or.inl ⟨rfl, rfl, h1.1, h1.2⟩
  · split at h
    · rename_i ncl mbl hcleq
      split_ifs at h with hnm
      cases h
      refine Or.inr (Or.inl ⟨ncl, rfl, rfl, hcleq, Or.inr ?_, h1⟩)
      have hmn : mbl = ncl := by omega
      rw [hmn]
    · rename_i ncl hcleq
      cases h
      exact Or.inr (Or.inl ⟨ncl, rfl, rfl, hcleq, Or.inl rfl, h1⟩)
    · rename_i mbl hcleq
      cases h
      exact Or.inr (Or.inr (Or.inl ⟨mbl, rfl, rfl, hcleq, rfl, h1⟩))
    · cases h
  · cases h
    have hcln : getContentLength hs = none := by
      rcases hg : getContentLength hs with - | n
      · rfl
      · exact absurd (Or.inl (by simp [hg])) h2
    exact Or.inr (Or.inr (Or.inr ⟨rfl, rfl, hcln, h3.1, h3.2.2.2,
      fun hc => h1 ⟨hc, h3.2.2.2⟩⟩))

theorem responseFraming_cases (ver : HVersion) (hs : Headers)
    (bl : Option Nat) (enc : Encoding) (hs1 : Headers)
    (h : responseFraming ver hs bl = .ok (enc, hs1)) :
    (enc = .chunked ∧ hs1 = hs ∧ hasChunkedTE hs = true ∧
      ver = .http11) ∨
    (∃ n, enc = .fixedLength n ∧ hs1 = hs ∧
      getContentLength hs = some n ∧ (bl = none ∨ bl = some n) ∧
      ¬(hasChunkedTE hs = true ∧ ver = .http11)) ∨
    (∃ n, enc = .fixedLength n ∧
      hs1 = insertHeader hs contentLengthName (showDec n) ∧
      getContentLength hs = none ∧ bl = some n ∧
      ¬(hasChunkedTE hs = true ∧ ver = .http11)) ∨
    (enc = .chunked ∧
      hs1 = insertHeader hs transferEncodingName "chunked".data ∧
      getContentLength hs = none ∧ bl = none ∧ ver = .http11 ∧
      ¬hasChunkedTE hs = true) ∨
    (enc = .closeDelimited ∧ getContentLength hs = none ∧ bl = none ∧
      ¬(hasChunkedTE hs = true ∧ ver = .http11) ∧
      ((connectionContains hs "close".data = true ∧ hs1 = hs) ∨
       (connectionContains hs "close".data = false ∧
        hs1 = insertHeader hs connectionName "close".data))) := by
  rw [responseFraming.eq_def] at h
  split_ifs at h with h1 h2 h3 hcc
  · cases h
    exact Or.inl ⟨rfl, rfl, h1.1, h1.2⟩
  · split at h
    · rename_i ncl mbl hcleq
      split_ifs at h with hnm
      cases h
      refine Or.inr (Or.inl ⟨ncl, rfl, rfl, hcleq, Or.inr ?_, h1⟩)
      have hmn : mbl = ncl := by omega
      rw [hmn]
    · rename_i ncl hcleq
      cases h
      exact Or.inr (Or.inl ⟨ncl, rfl, rfl, hcleq, Or.inl rfl, h1⟩)
    · rename_i mbl hcleq
      cases h
      exact Or.inr (Or.inr (Or.inl ⟨mbl, rfl, rfl, hcleq, rfl, h1⟩))
    · cases h
  · cases h
    have hcln : getContentLength hs = none := by
      rcases hg : getContentLength hs with - | n
      · rfl
      · exact absurd (Or.inl (by simp [hg])) h2
    exact Or.inr (Or.inr (Or.inr (Or.inl ⟨rfl, rfl, hcln, h3.1,
      h3.2.2, fun hc => h1 ⟨hc, h3.2.2⟩⟩)))
  · cases h
    have hcln : getContentLength hs = none := by
      rcases hg : getContentLength hs with - | n
      · rfl
      · exact absurd (Or.inl (by simp [hg])) h2
    have hbln : bl = none := by
      rcases hg : bl with - | n
      · rfl
      · exact absurd (Or.inr (by simp [hg])) h2
    exact Or.inr (Or.inr (Or.inr (Or.inr ⟨rfl, hcln, hbln, h1,
      Or.inl ⟨hcc, rfl⟩⟩)))
  · cases h
    have hcln : getContentLength hs = none := by
      rcases hg : getContentLength hs with - | n
      · rfl
      · exact absurd (Or.inl (by simp [hg])) h2
    have hbln : bl = none := by
      rcases hg : bl with - | n
      · rfl
      · exact absurd (Or.inr (by simp [hg])) h2
    exact Or.inr (Or.inr (Or.inr (Or.inr ⟨rfl, hcln, hbln, h1,
      Or.inr ⟨by simpa using hcc, rfl⟩⟩)))

theorem write_request_parts (r : Request) (out : WriteOut)
    (hw : write_request r = .ok out) :
    ∃ enc hs1 vstr bytes,
      requestFraming r.method r.version r.headers r.body.len =
        .ok (enc, hs1) ∧
      requestVersionStr r.version = .ok vstr ∧
      writeBodyBytes r.body enc = .ok bytes ∧
      out = ⟨requestHead r.method r.uri vstr hs1 ++ bytes,
        requestHead r.method r.uri vstr hs1, hs1, enc⟩ := by
  rw [write_request.eq_def] at hw
  split at hw
  · cases hw
  · rename_i enc1 hs1 hfr
    split at hw
    · cases hw
    · rename_i vstr hvs
      split at hw
      · cases hw
      · rename_i bytes hbb
        exact ⟨_, _, _, _, hfr, hvs, hbb, (Except.ok.inj hw).symm⟩

theorem write_response_parts (r : Response) (out : WriteResOut)
    (hw : write_response r true = .ok out) :
    ∃ enc hs1 bytes,
      responseFraming r.version r.headers r.body.len = .ok (enc, hs1) ∧
      writeBodyBytes r.body enc = .ok bytes ∧
      out = ⟨responseHead r (responseFinalHeaders r hs1) ++ bytes,
        responseHead r (responseFinalHeaders r hs1),
        responseFinalHeaders r hs1, enc,
        responseOutcome r enc (responseFinalHeaders r hs1)⟩ := by
  rw [write_response.eq_def] at hw
  split at hw
  · cases hw
  · rename_i enc1 hs1 hfr
    split at hw
    · cases hw
    · rename_i bytes hbb
      exact ⟨_, _, _, hfr, by simpa using hbb, (Except.ok.inj hw).symm⟩

theorem te_none_of_not_chunked (hs : Headers) (ver : HVersion)
    (hteOk : getHeaderValue hs transferEncodingName = none ∨
      getHeaderValue hs transferEncodingName = some "chunked".data)
    (hte11 : getHeaderValue hs transferEncodingName = some "chunked".data →
      ver = .http11)
    (hnc : ¬(hasChunkedTE hs = true ∧ ver = .http11)) :
    getHeaderValue hs transferEncodingName = none := by
  rcases hteOk with h | h
  · exact h
  · exact absurd ⟨hasChunkedTE_of_some h, hte11 h⟩ hnc

theorem responseFinalHeaders_id (r : Response) (hs1 : Headers)
    (hte11 : getHeaderValue r.headers transferEncodingName =
      some "chunked".data → r.version = .http11) :
    responseFinalHeaders r hs1 = hs1 := by
  rw [responseFinalHeaders, if_neg ?_]
  intro hcon
  have h11 := hte11 (hasChunkedTE_some hcon.2)
  rw [hcon.1] at h11
  cases h11

theorem tryGetContentLength_none (hs : Headers)
    (h : getHeaderValue hs contentLengthName = none) :
    tryGetContentLength hs = .ok none := by
  rw [tryGetContentLength, h]

theorem bodyFromHeadersReq_chunked (hs1 : Headers) (rest : Str)
    (hTE : getHeaderValue hs1 transferEncodingName = some "chunked".data) :
    bodyFromHeadersReq hs1 rest =
      .ok (.iter ((decodeChunked rest).map (fun d => .ok (.data d)))) := by
  simp [bodyFromHeadersReq, tryGetTransferEncoding, hTE]

theorem bodyFromHeadersReq_fixed (hs1 : Headers) (rest : Str) (n : Nat)
    (hTE : getHeaderValue hs1 transferEncodingName = none)
    (hCL : getContentLength hs1 = some n)
    (hlen : rest.length = n) :
    bodyFromHeadersReq hs1 rest =
      .ok (if n < 1024 then .buffered rest else .reader rest (some n)) := by
  simp only [bodyFromHeadersReq, tryGetTransferEncoding, hTE,
    getContentLength_some_tryGet hs1 n hCL]
  by_cases h1024 : n < 1024
  · rw [if_pos h1024, if_neg (by omega), if_pos h1024, ← hlen,
      List.take_length]
  · rw [if_neg h1024, if_neg h1024]

theorem bodyFromHeadersRes_chunked (hs1 : Headers) (rest : Str)
    (hTE : getHeaderValue hs1 transferEncodingName = some "chunked".data) :
    bodyFromHeadersRes hs1 rest =
      .ok (.iter ((decodeChunked rest).map (fun d => .ok (.data d)))) := by
  simp [bodyFromHeadersRes, tryGetTransferEncoding, hTE]

theorem bodyFromHeadersRes_fixed (hs1 : Headers) (rest : Str) (n : Nat)
    (hTE : getHeaderValue hs1 transferEncodingName = none)
    (hCL : getContentLength hs1 = some n)
    (hlen : rest.length = n) :
    bodyFromHeadersRes hs1 rest =
      .ok (if n < 1024 then .buffered rest else .reader rest (some n)) := by
  simp only [bodyFromHeadersRes, tryGetTransferEncoding, hTE,
    getContentLength_some_tryGet hs1 n hCL]
  by_cases h1024 : n < 1024
  · rw [if_pos h1024, if_neg (by omega), if_pos h1024, ← hlen,
      List.take_length]
  · rw [if_neg h1024, if_neg h1024]

theorem bodyFromHeadersRes_close (hs1 : Headers) (rest : Str)
    (hTE : getHeaderValue hs1 transferEncodingName = none)
    (hCL : getHeaderValue hs1 contentLengthName = none)
    (hcc : connectionContains hs1 "close".data = true) :
    bodyFromHeadersRes hs1 rest = .ok (.reader rest none) := by
  simp only [bodyFromHeadersRes, tryGetTransferEncoding, hTE,
    tryGetContentLength_none hs1 hCL]
  rw [if_pos hcc]

/-- A successfully written request parses back: same method, URI and
version, the headers as emitted (the original plus any injected framing
header), and a body carrying the same bytes. -/
theorem roundtrip_request (r : Request) (out : WriteOut)
    (hm : methodOk r.method = true) (hu : uriOk r.uri = true)
    (hok : headerLinesOk r.headers = true)
    (hlen : r.headers.length ≤ 63)
    (hcs : r.body.chunkSafe = true) (hex : bodyExact r.body)
    (hcl : ∀ n, getContentLength r.headers = some n →
      n = r.body.payload.length)
    (hteOk : getHeaderValue r.headers transferEncodingName = none ∨
      getHeaderValue r.headers transferEncodingName = some "chunked".data)
    (hte11 : getHeaderValue r.headers transferEncodingName =
      some "chunked".data → r.version = .http11)
    (hw : write_request r = .ok out)
    (hne : out.encoding = .chunked →
      ∀ d ∈ datasOf r.body.into_chunks, ¬d = []) :
    ∃ b, parse_request out.wire =
        .ok ⟨r.method, r.uri, r.version, out.headers, b⟩ ∧
      b.into_bytes = .ok r.body.payload := by
  obtain ⟨enc, hs1, vstr, bytes, hfr, hvs, hbb, hout⟩ :=
    write_request_parts r out hw
  have hpv : parseVersion vstr = .ok r.version :=
    requestVersionStr_parse _ _ hvs
  subst hout
  have hne' : enc = .chunked →
      ∀ d ∈ datasOf r.body.into_chunks, ¬d = [] := hne
  show ∃ b, parse_request (requestHead r.method r.uri vstr hs1 ++ bytes) =
      .ok ⟨r.method, r.uri, r.version, hs1, b⟩ ∧
    b.into_bytes = .ok r.body.payload
  rcases requestFraming_cases _ _ _ _ _ _ hfr with
    ⟨henc, hhs1, hch, hv11⟩ | ⟨n, henc, hhs1, hcln, hbl, hnc⟩ |
    ⟨n, henc, hhs1, hcln, hbl, hnc⟩ | ⟨henc, hhs1, hcln, hbl, hv11, hnch⟩
  · subst henc hhs1
    have hTE : getHeaderValue r.headers transferEncodingName =
        some "chunked".data := hasChunkedTE_some hch
    obtain ⟨ts, hts⟩ := encodeChunkedBody_ok r.body.into_chunks
      (into_chunks_isOk r.body)
    have hbb2 : encodeChunkedBody r.body.into_chunks = .ok bytes := hbb
    rw [hts] at hbb2
    have hbytes := Except.ok.inj hbb2
    have hdec : decodeChunked bytes = datasOf r.body.into_chunks := by
      rw [← hbytes]
      exact decodeChunked_encode _ _ (hne' rfl)
    refine ⟨.iter ((decodeChunked bytes).map (fun d => .ok (.data d))),
      ?_, ?_⟩
    · rw [parse_request_split r.method r.uri vstr r.version r.headers bytes
        hm hu hpv hok, if_neg (by omega),
        bodyFromHeadersReq_chunked r.headers bytes hTE]
    · rw [into_bytes_iter_datas (decodeChunked bytes), hdec,
        ← chunkDataConcat_eq_flatten_datasOf, into_chunks_chunkSafe _ hcs]
  · subst henc hhs1
    have hnpay : n = r.body.payload.length := hcl n hcln
    have hTEn : getHeaderValue r.headers transferEncodingName = none :=
      te_none_of_not_chunked r.headers r.version hteOk hte11 hnc
    have hbytes : bytes = r.body.payload := by
      have hbb2 : (if n < 1024 then r.body.into_bytes
          else .ok r.body.into_reader.read_to_end) = .ok bytes := hbb
      by_cases h1024 : n < 1024
      · rw [if_pos h1024, into_bytes_chunkSafe _ hcs] at hbb2
        exact (Except.ok.inj hbb2).symm
      · rw [if_neg h1024, read_to_end_chunkSafe _ hcs] at hbb2
        exact (Except.ok.inj hbb2).symm
    have hrlen : bytes.length = n := by rw [hbytes, hnpay]
    have hbody := bodyFromHeadersReq_fixed r.headers bytes n hTEn hcln hrlen
    refine ⟨if n < 1024 then .buffered bytes else .reader bytes (some n),
      ?_, ?_⟩
    · rw [parse_request_split r.method r.uri vstr r.version r.headers bytes
        hm hu hpv hok, if_neg (by omega), hbody]
    · by_cases h1024 : n < 1024
      · rw [if_pos h1024]
        show Body.into_bytes (.buffered bytes) = .ok r.body.payload
        rw [Body.into_bytes, hbytes]
      · rw [if_neg h1024]
        show Body.into_bytes (.reader bytes (some n)) = .ok r.body.payload
        rw [Body.into_bytes, hbytes, hnpay, List.take_length]
  · subst henc hhs1
    have hnpay : n = r.body.payload.length :=
      len_eq_payload_length r.body n hcs hex hbl
    have hTEn0 : getHeaderValue r.headers transferEncodingName = none :=
      te_none_of_not_chunked r.headers r.version hteOk hte11 hnc
    have hok1 : headerLinesOk
        (insertHeader r.headers contentLengthName (showDec n)) = true :=
      headerLinesOk_insert _ _ _ hok (by decide) (valueOk_showDec n)
    have hlen1 : (insertHeader r.headers contentLengthName
        (showDec n)).length ≤ 64 :=
      le_trans (insertHeader_length _ _ _) (by omega)
    have hTEn : getHeaderValue
        (insertHeader r.headers contentLengthName (showDec n))
        transferEncodingName = none := by
      rw [getHeaderValue_insertHeader_ne _ _ _ _ (by decide)]
      exact hTEn0
    have hCL1 : getContentLength
        (insertHeader r.headers contentLengthName (showDec n)) = some n :=
      getContentLength_insert_showDec _ _
    have hbytes : bytes = r.body.payload := by
      have hbb2 : (if n < 1024 then r.body.into_bytes
          else .ok r.body.into_reader.read_to_end) = .ok bytes := hbb
      by_cases h1024 : n < 1024
      · rw [if_pos h1024, into_bytes_chunkSafe _ hcs] at hbb2
        exact (Except.ok.inj hbb2).symm
      · rw [if_neg h1024, read_to_end_chunkSafe _ hcs] at hbb2
        exact (Except.ok.inj hbb2).symm
    have hrlen : bytes.length = n := by rw [hbytes, hnpay]
    have hbody := bodyFromHeadersReq_fixed
      (insertHeader r.headers contentLengthName (showDec n)) bytes n
      hTEn hCL1 hrlen
    refine ⟨if n < 1024 then .buffered bytes else .reader bytes (some n),
      ?_, ?_⟩
    · rw [parse_request_split r.method r.uri vstr r.version
        (insertHeader r.headers contentLengthName (showDec n)) bytes
        hm hu hpv hok1, if_neg (by omega), hbody]
    · by_cases h1024 : n < 1024
      · rw [if_pos h1024]
        show Body.into_bytes (.buffered bytes) = .ok r.body.payload
        rw [Body.into_bytes, hbytes]
      · rw [if_neg h1024]
        show Body.into_bytes (.reader bytes (some n)) = .ok r.body.payload
        rw [Body.into_bytes, hbytes, hnpay, List.take_length]
  · subst henc hhs1
    have hok1 : headerLinesOk
        (insertHeader r.headers transferEncodingName "chunked".data) =
        true :=
      headerLinesOk_insert _ _ _ hok (by decide) (by decide)
    have hTE : getHeaderValue
        (insertHeader r.headers transferEncodingName "chunked".data)
        transferEncodingName = some "chunked".data :=
      getHeaderValue_insertHeader_self _ _ _
    obtain ⟨ts, hts⟩ := encodeChunkedBody_ok r.body.into_chunks
      (into_chunks_isOk r.body)
    have hbb2 : encodeChunkedBody r.body.into_chunks = .ok bytes := hbb
    rw [hts] at hbb2
    have hbytes := Except.ok.inj hbb2
    have hdec : decodeChunked bytes = datasOf r.body.into_chunks := by
      rw [← hbytes]
      exact decodeChunked_encode _ _ (hne' rfl)
    refine ⟨.iter ((decodeChunked bytes).map (fun d => .ok (.data d))),
      ?_, ?_⟩
    · rw [parse_request_split r.method r.uri vstr r.version
        (insertHeader r.headers transferEncodingName "chunked".data) bytes
        hm hu hpv hok1,
        if_neg (by
          have := insertHeader_length r.headers transferEncodingName
            "chunked".data
          omega),
        bodyFromHeadersReq_chunked _ bytes hTE]
    · rw [into_bytes_iter_datas (decodeChunked bytes), hdec,
        ← chunkDataConcat_eq_flatten_datasOf, into_chunks_chunkSafe _ hcs]

/-- A successfully written response parses back: same version and status,
the headers as emitted (the original plus any injected framing or
`Connection: close` header), and a body carrying the same bytes. -/
theorem roundtrip_response (r : Response) (out : WriteResOut)
    (hv09 : ¬r.version = .http09)
    (hst1 : 100 ≤ r.status) (hst2 : r.status ≤ 999)
    (hok : headerLinesOk r.headers = true)
    (hlen : r.headers.length ≤ 63)
    (hcs : r.body.chunkSafe = true) (hex : bodyExact r.body)
    (hcl : ∀ n, getContentLength r.headers = some n →
      n = r.body.payload.length)
    (hclwf : getHeaderValue r.headers contentLengthName = none ∨
      ∃ k, getContentLength r.headers = some k)
    (hteOk : getHeaderValue r.headers transferEncodingName = none ∨
      getHeaderValue r.headers transferEncodingName = some "chunked".data)
    (hte11 : getHeaderValue r.headers transferEncodingName =
      some "chunked".data → r.version = .http11)
    (hw : write_response r true = .ok out)
    (hne : out.encoding = .chunked →
      ∀ d ∈ datasOf r.body.into_chunks, ¬d = []) :
    ∃ b, parse_response out.wire =
        .ok ⟨r.version, r.status, out.headers, false, b⟩ ∧
      b.into_bytes = .ok r.body.payload := by
  obtain ⟨enc, hs1, bytes, hfr, hbb, hout⟩ := write_response_parts r out hw
  have hid : responseFinalHeaders r hs1 = hs1 :=
    responseFinalHeaders_id r hs1 hte11
  subst hout
  have hne' : enc = .chunked →
      ∀ d ∈ datasOf r.body.into_chunks, ¬d = [] := hne
  show ∃ b, parse_response
      (responseHead r (responseFinalHeaders r hs1) ++ bytes) =
      .ok ⟨r.version, r.status, responseFinalHeaders r hs1, false, b⟩ ∧
    b.into_bytes = .ok r.body.payload
  rw [hid]
  rcases responseFraming_cases _ _ _ _ _ hfr with
    ⟨henc, hhs1, hch, hv11⟩ | ⟨n, henc, hhs1, hcln, hbl, hnc⟩ |
    ⟨n, henc, hhs1, hcln, hbl, hnc⟩ | ⟨henc, hhs1, hcln, hbl, hv11, hnch⟩ |
    ⟨henc, hcln, hbl, hnc, hccd⟩
  · subst henc hhs1
    have hTE : getHeaderValue r.headers transferEncodingName =
        some "chunked".data := hasChunkedTE_some hch
    obtain ⟨ts, hts⟩ := encodeChunkedBody_ok r.body.into_chunks
      (into_chunks_isOk r.body)
    have hbb2 : encodeChunkedBody r.body.into_chunks = .ok bytes := hbb
    rw [hts] at hbb2
    have hbytes := Except.ok.inj hbb2
    have hdec : decodeChunked bytes = datasOf r.body.into_chunks := by
      rw [← hbytes]
      exact decodeChunked_encode _ _ (hne' rfl)
    refine ⟨.iter ((decodeChunked bytes).map (fun d => .ok (.data d))),
      ?_, ?_⟩
    · rw [parse_response_split r r.headers bytes hv09 hst1 hst2 hok,
        if_neg (by omega), bodyFromHeadersRes_chunked r.headers bytes hTE]
    · rw [into_bytes_iter_datas (decodeChunked bytes), hdec,
        ← chunkDataConcat_eq_flatten_datasOf, into_chunks_chunkSafe _ hcs]
  · subst henc hhs1
    have hnpay : n = r.body.payload.length := hcl n hcln
    have hTEn : getHeaderValue r.headers transferEncodingName = none :=
      te_none_of_not_chunked r.headers r.version hteOk hte11 hnc
    have hbytes : bytes = r.body.payload := by
      have hbb2 : (if n < 1024 then r.body.into_bytes
          else .ok r.body.into_reader.read_to_end) = .ok bytes := hbb
      by_cases h1024 : n < 1024
      · rw [if_pos h1024, into_bytes_chunkSafe _ hcs] at hbb2
        exact (Except.ok.inj hbb2).symm
      · rw [if_neg h1024, read_to_end_chunkSafe _ hcs] at hbb2
        exact (Except.ok.inj hbb2).symm
    have hrlen : bytes.length = n := by rw [hbytes, hnpay]
    have hbody := bodyFromHeadersRes_fixed r.headers bytes n hTEn hcln hrlen
    refine ⟨if n < 1024 then .buffered bytes else .reader bytes (some n),
      ?_, ?_⟩
    · rw [parse_response_split r r.headers bytes hv09 hst1 hst2 hok,
        if_neg (by omega), hbody]
    · by_cases h1024 : n < 1024
      · rw [if_pos h1024]
        show Body.into_bytes (.buffered bytes) = .ok r.body.payload
        rw [Body.into_bytes, hbytes]
      · rw [if_neg h1024]
        show Body.into_bytes (.reader bytes (some n)) = .ok r.body.payload
        rw [Body.into_bytes, hbytes, hnpay, List.take_length]
  · subst henc hhs1
    have hnpay : n = r.body.payload.length :=
      len_eq_payload_length r.body n hcs hex hbl
    have hTEn0 : getHeaderValue r.headers transferEncodingName = none :=
      te_none_of_not_chunked r.headers r.version hteOk hte11 hnc
    have hok1 : headerLinesOk
        (insertHeader r.headers contentLengthName (showDec n)) = true :=
      headerLinesOk_insert _ _ _ hok (by decide) (valueOk_showDec n)
    have hTEn : getHeaderValue
        (insertHeader r.headers contentLengthName (showDec n))
        transferEncodingName = none := by
      rw [getHeaderValue_insertHeader_ne _ _ _ _ (by decide)]
      exact hTEn0
    have hCL1 : getContentLength
        (insertHeader r.headers contentLengthName (showDec n)) = some n :=
      getContentLength_insert_showDec _ _
    have hbytes : bytes = r.body.payload := by
      have hbb2 : (if n < 1024 then r.body.into_bytes
          else .ok r.body.into_reader.read_to_end) = .ok bytes := hbb
      by_cases h1024 : n < 1024
      · rw [if_pos h1024, into_bytes_chunkSafe _ hcs] at hbb2
        exact (Except.ok.inj hbb2).symm
      · rw [if_neg h1024, read_to_end_chunkSafe _ hcs] at hbb2
        exact (Except.ok.inj hbb2).symm
    have hrlen : bytes.length = n := by rw [hbytes, hnpay]
    have hbody := bodyFromHeadersRes_fixed
      (insertHeader r.headers contentLengthName (showDec n)) bytes n
      hTEn hCL1 hrlen
    refine ⟨if n < 1024 then .buffered bytes else .reader bytes (some n),
      ?_, ?_⟩
    · rw [parse_response_split r
        (insertHeader r.headers contentLengthName (showDec n)) bytes
        hv09 hst1 hst2 hok1,
        if_neg (by
          have := insertHeader_length r.headers contentLengthName (showDec n)
          omega), hbody]
    · by_cases h1024 : n < 1024
      · rw [if_pos h1024]
        show Body.into_bytes (.buffered bytes) = .ok r.body.payload
        rw [Body.into_bytes, hbytes]
      · rw [if_neg h1024]
        show Body.into_bytes (.reader bytes (some n)) = .ok r.body.payload
        rw [Body.into_bytes, hbytes, hnpay, List.take_length]
  · subst henc hhs1
    have hok1 : headerLinesOk
        (insertHeader r.headers transferEncodingName "chunked".data) =
        true :=
      headerLinesOk_insert _ _ _ hok (by decide) (by decide)
    have hTE : getHeaderValue
        (insertHeader r.headers transferEncodingName "chunked".data)
        transferEncodingName = some "chunked".data :=
      getHeaderValue_insertHeader_self _ _ _
    obtain ⟨ts, hts⟩ := encodeChunkedBody_ok r.body.into_chunks
      (into_chunks_isOk r.body)
    have hbb2 : encodeChunkedBody r.body.into_chunks = .ok bytes := hbb
    rw [hts] at hbb2
    have hbytes := Except.ok.inj hbb2
    have hdec : decodeChunked bytes = datasOf r.body.into_chunks := by
      rw [← hbytes]
      exact decodeChunked_encode _ _ (hne' rfl)
    refine ⟨.iter ((decodeChunked bytes).map (fun d => .ok (.data d))),
      ?_, ?_⟩
    · rw [parse_response_split r
        (insertHeader r.headers transferEncodingName "chunked".data) bytes
        hv09 hst1 hst2 hok1,
        if_neg (by
          have := insertHeader_length r.headers transferEncodingName
            "chunked".data
          omega),
        bodyFromHeadersRes_chunked _ bytes hTE]
    · rw [into_bytes_iter_datas (decodeChunked bytes), hdec,
        ← chunkDataConcat_eq_flatten_datasOf, into_chunks_chunkSafe _ hcs]
  · subst henc
    have hCLn : getHeaderValue r.headers contentLengthName = none := by
      rcases hclwf with h | ⟨k, hk⟩
      · exact h
      · rw [hcln] at hk
        cases hk
    have hTEn0 : getHeaderValue r.headers transferEncodingName = none :=
      te_none_of_not_chunked r.headers r.version hteOk hte11 hnc
    have hbytes : bytes = r.body.payload := by
      have hbb2 : Except.ok (ε := IoErr) r.body.into_reader.read_to_end =
          .ok bytes := hbb
      rw [read_to_end_chunkSafe _ hcs] at hbb2
      exact (Except.ok.inj hbb2).symm
    rcases hccd with ⟨hcc, hhs1⟩ | ⟨hcc, hhs1⟩
    · subst hhs1
      have hbody := bodyFromHeadersRes_close r.headers bytes hTEn0 hCLn hcc
      refine ⟨.reader bytes none, ?_, ?_⟩
      · rw [parse_response_split r r.headers bytes hv09 hst1 hst2 hok,
          if_neg (by omega), hbody]
      · show Body.into_bytes (.reader bytes none) = .ok r.body.payload
        rw [Body.into_bytes, hbytes]
    · subst hhs1
      have hok1 : headerLinesOk
          (insertHeader r.headers connectionName "close".data) = true :=
        headerLinesOk_insert _ _ _ hok (by decide) (by decide)
      have hTEn : getHeaderValue
          (insertHeader r.headers connectionName "close".data)
          transferEncodingName = none := by
        rw [getHeaderValue_insertHeader_ne _ _ _ _ (by decide)]
        exact hTEn0
      have hCLn1 : getHeaderValue
          (insertHeader r.headers connectionName "close".data)
          contentLengthName = none := by
        rw [getHeaderValue_insertHeader_ne _ _ _ _ (by decide)]
        exact hCLn
      have hcc1 : connectionContains
          (insertHeader r.headers connectionName "close".data)
          "close".data = true :=
        connectionContains_close_of_value _
          (getHeaderValue_insertHeader_self _ _ _)
      have hbody := bodyFromHeadersRes_close
        (insertHeader r.headers connectionName "close".data) bytes
        hTEn hCLn1 hcc1
      refine ⟨.reader bytes none, ?_, ?_⟩
      · rw [parse_response_split r
          (insertHeader r.headers connectionName "close".data) bytes
          hv09 hst1 hst2 hok1,
          if_neg (by
            have := insertHeader_length r.headers connectionName
              "close".data
            omega), hbody]
      · show Body.into_bytes (.reader bytes none) = .ok r.body.payload
        rw [Body.into_bytes, hbytes]

/-- C1, corrected.  The original claim fails: an iterator body with an
empty `Data` chunk makes the writer emit a `0 CRLF` chunk that the parser
reads as the stream terminator, so the parsed body is a strict prefix of
the original (see the counterexample); responses may additionally gain an
injected `Connection: close` header, which the claim's allowance does not
cover.  Corrected statement: for a request whose method and URI are
tokens, whose header map is well formed with at most 63 entries, whose
`Transfer-Encoding` header (if any) is `chunked` and comes with version
HTTP/1.1, whose declared `Content-Length` (if any) equals the body's
payload length, whose body is chunk-safe with an exact declared reader
length, and whose chunked framing (when chosen) carries no empty data
chunk, a successful `write_request` followed by `parse_request` returns
the same method, URI and version, exactly the emitted header map, and a
body holding the same payload bytes; likewise for responses (version not
0.9, three-digit status, `Content-Length` header absent or well formed),
whose emitted header map may additionally contain an injected
`Connection: close`. -/
theorem c1_roundtrip :
    (∀ (r : Request) (out : WriteOut),
      methodOk r.method = true → uriOk r.uri = true →
      headerLinesOk r.headers = true → r.headers.length ≤ 63 →
      r.body.chunkSafe = true → bodyExact r.body →
      (∀ n, getContentLength r.headers = some n →
        n = r.body.payload.length) →
      (getHeaderValue r.headers transferEncodingName = none ∨
        getHeaderValue r.headers transferEncodingName =
          some "chunked".data) →
      (getHeaderValue r.headers transferEncodingName =
        some "chunked".data → r.version = .http11) →
      write_request r = .ok out →
      (out.encoding = .chunked →
        ∀ d ∈ datasOf r.body.into_chunks, ¬d = []) →
      ∃ b, parse_request out.wire =
          .ok ⟨r.method, r.uri, r.version, out.headers, b⟩ ∧
        b.into_bytes = .ok r.body.payload) ∧
    (∀ (r : Response) (out : WriteResOut),
      ¬r.version = .http09 → 100 ≤ r.status → r.status ≤ 999 →
      headerLinesOk r.headers = true → r.headers.length ≤ 63 →
      r.body.chunkSafe = true → bodyExact r.body →
      (∀ n, getContentLength r.headers = some n →
        n = r.body.payload.length) →
      (getHeaderValue r.headers contentLengthName = none ∨
        ∃ k, getContentLength r.headers = some k) →
      (getHeaderValue r.headers transferEncodingName = none ∨
        getHeaderValue r.headers transferEncodingName =
          some "chunked".data) →
      (getHeaderValue r.headers transferEncodingName =
        some "chunked".data → r.version = .http11) →
      write_response r true = .ok out →
      (out.encoding = .chunked →
        ∀ d ∈ datasOf r.body.into_chunks, ¬d = []) →
      ∃ b, parse_response out.wire =
          .ok ⟨r.version, r.status, out.headers, false, b⟩ ∧
        b.into_bytes = .ok r.body.payload) :=
  ⟨fun r out hm hu hok hlen hcs hex hcl hteOk hte11 hw hne =>
    roundtrip_request r out hm hu hok hlen hcs hex hcl hteOk hte11 hw hne,
   fun r out hv09 hst1 hst2 hok hlen hcs hex hcl hclwf hteOk hte11 hw
       hne =>
    roundtrip_response r out hv09 hst1 hst2 hok hlen hcs hex hcl hclwf
      hteOk hte11 hw hne⟩

theorem c1_roundtrip_witness :
    methodOk "GET".data = true ∧
    (∃ b, parse_request
        (requestHead "GET".data "/".data "HTTP/1.1".data
          [("content-length".data, ['3'])] ++ "abc".data) =
        .ok ⟨"GET".data, "/".data, .http11,
          [("content-length".data, ['3'])], b⟩ ∧
      b.into_bytes = .ok "abc".data) ∧
    (∃ b, parse_response
        (responseHead ⟨.http11, 200, [("content-length".data, ['3'])],
          false, .buffered "abc".data⟩
          [("content-length".data, ['3'])] ++ "abc".data) =
        .ok ⟨.http11, 200, [("content-length".data, ['3'])], false, b⟩ ∧
      b.into_bytes = .ok "abc".data) :=
  ⟨by decide,
   c1_roundtrip.1
     ⟨"GET".data, "/".data, .http11, [("content-length".data, ['3'])],
       .buffered "abc".data⟩
     ⟨requestHead "GET".data "/".data "HTTP/1.1".data
         [("content-length".data, ['3'])] ++ "abc".data,
       requestHead "GET".data "/".data "HTTP/1.1".data
         [("content-length".data, ['3'])],
       [("content-length".data, ['3'])], .fixedLength 3⟩
     (by decide) (by decide) (by decide) (by decide) (by decide)
     (by trivial) (by decide) (by decide) (by decide) (by decide)
     (by decide),
   c1_roundtrip.2
     ⟨.http11, 200, [("content-length".data, ['3'])], false,
       .buffered "abc".data⟩
     ⟨responseHead ⟨.http11, 200, [("content-length".data, ['3'])],
           false, .buffered "abc".data⟩
         [("content-length".data, ['3'])] ++ "abc".data,
       responseHead ⟨.http11, 200, [("content-length".data, ['3'])],
           false, .buffered "abc".data⟩
         [("content-length".data, ['3'])],
       [("content-length".data, ['3'])], .fixedLength 3, .keepAlive⟩
     (by decide) (by decide) (by decide) (by decide) (by decide)
     (by decide) (by trivial) (by decide) (Or.inr ⟨3, by decide⟩)
     (by decide) (by decide) (by decide) (by decide)⟩

theorem c1_counterexample :
    ((write_request ⟨"POST".data, "/".data, .http11,
        [("transfer-encoding".data, "chunked".data)],
        .iter [.ok (.data ['a', 'b']), .ok (.data []),
          .ok (.data ['c', 'd'])]⟩).map
      (fun o => ((parse_request o.wire).map
        (fun p => (p.method, p.uri, p.version, p.headers,
          p.body.into_bytes)), o.headers)) =
      .ok (.ok ("POST".data, "/".data, .http11,
        [("transfer-encoding".data, "chunked".data)],
        .ok ['a', 'b']),
        [("transfer-encoding".data, "chunked".data)])) ∧
    (Body.iter [.ok (.data ['a', 'b']), .ok (.data []),
      .ok (.data ['c', 'd'])]).into_bytes = .ok ['a', 'b', 'c', 'd'] := by
  constructor
  · rfl
  · rfl

end Touche
